import Mathlib

/-!
Shallow embedding of the MindForge persistence layer (src/database.py and
src/models.py) and proofs about its specified behaviour.

Conventions of the embedding:
* SQLite tables are Lean lists of row structures; `DB` bundles them together
  with the AUTOINCREMENT counters of the tables that have integer primary keys.
* Python exceptions are modelled with `Except Err`; the sqlite3 connection
  context manager (`with self._get_connection() as conn:`) commits on normal
  exit and rolls back on an exception, so an `.error` result leaves the
  committed database unchanged.
* Python `str.strip()` is `pyStrip`, `str.lower()` is `pyLower`
  (both operate per character; the source data is ASCII-level text).
* `PRAGMA foreign_keys = ON` is issued by `_get_connection`, so foreign key
  checks and `ON DELETE` actions of the schema in `_init_db` are part of the
  semantics of every statement.
-/

namespace MindForge

/-- ASCII whitespace as stripped by Python's `str.strip()`. -/
def isSpaceChar (c : Char) : Bool :=
  c = ' ' || c = '\t' || c = '\n' || c = '\r' || c = '\x0b' || c = '\x0c'

/-- Python `str.strip()` (the source data is ASCII-level text). -/
def pyStrip (s : String) : String :=
  ⟨((s.data.dropWhile isSpaceChar).reverse.dropWhile isSpaceChar).reverse⟩

/-- Python `str.lower()` (ASCII-level). -/
def pyLower (s : String) : String := ⟨s.data.map Char.toLower⟩

/-! ### models.py: BlockType, BlockItem, Block, Note, Topic -/

/-- `class BlockType(Enum)` from src/models.py. -/
inductive BlockType where
  | text
  | heading
  | bulletList
  | numberedList
  | checklist
  | divider
deriving DecidableEq

/-- The `.value` of each enum member. -/
def BlockType.value : BlockType → String
  | .text => "text"
  | .heading => "heading"
  | .bulletList => "bullet_list"
  | .numberedList => "numbered_list"
  | .checklist => "checklist"
  | .divider => "divider"

/-- `BlockType(type_str)`: enum lookup by value; `none` models the
`ValueError` raised when the string is not one of the six values. -/
def BlockType.ofValue (s : String) : Option BlockType :=
  if s = "text" then some .text
  else if s = "heading" then some .heading
  else if s = "bullet_list" then some .bulletList
  else if s = "numbered_list" then some .numberedList
  else if s = "checklist" then some .checklist
  else if s = "divider" then some .divider
  else none

/-- `@dataclass class BlockItem` from src/models.py. -/
structure BlockItem where
  id : String
  content : String
  checked : Bool
deriving DecidableEq

/-- Contents of a `blocks.items_json` column value: either a JSON array of
`asdict(item)` objects (what `save_note` writes and `json.loads` +
`BlockItem(**item)` decode), or text that `json.loads` rejects. -/
inductive ItemsJson where
  | payload (items : List BlockItem)
  | garbage (raw : String)
deriving DecidableEq

/-- A Python object passed to `save_note` in the `note.blocks` list.
`type?` / `content?` are `none` when the object lacks the attribute
(`hasattr(block, 'type')` / `hasattr(block, 'content')` fail). -/
structure PyBlock where
  id : String
  type? : Option BlockType
  content? : Option String
  items : List BlockItem
  level : Int
deriving DecidableEq

/-- `@dataclass class Note` from src/models.py, as passed to `save_note`.
A dataclass `Note` always has the `title` and `tags` attributes, so the
`hasattr` guards in `save_note` reduce to checks on the values. -/
structure PyNote where
  id : Option Nat
  title : String
  topic_id : Option Nat
  blocks : List PyBlock
  tags : List String
deriving DecidableEq

/-- `@dataclass class Topic` from src/models.py (persistence-relevant
fields). -/
structure Topic where
  id : Option Nat
  name : String
  parent_id : Option Nat
  note_count : Nat
deriving DecidableEq

/-- `Topic.validate` from src/models.py: `True` iff no `ValidationError` is
raised (name non-empty after strip, at most `NAME_MAX_LENGTH = 100` chars,
positive parent id when given; `note_count` is a `Nat` here so its
non-negativity check always passes). -/
def Topic.validateOk (t : Topic) : Bool :=
  ¬ pyStrip t.name = "" && t.name.length ≤ 100 &&
    (match t.parent_id with
     | some p => 0 < p
     | none => true)

/-! ### database.py: relational state -/

/-- A row of the `topics` table. -/
structure TopicRow where
  id : Nat
  name : String
  parent_id : Option Nat
deriving DecidableEq

/-- A row of the `notes` table. -/
structure NoteRow where
  id : Nat
  title : String
  topic_id : Option Nat
deriving DecidableEq

/-- A row of the `tags` table. -/
structure TagRow where
  id : Nat
  name : String
deriving DecidableEq

/-- A row of the `note_tags` association table. -/
structure NoteTagRow where
  note_id : Nat
  tag_id : Nat
deriving DecidableEq

/-- A row of the `blocks` table. -/
structure BlockRow where
  id : String
  note_id : Nat
  type : String
  content : Option String
  items_json : Option ItemsJson
  level : Int
  position : Int
deriving DecidableEq

/-- The committed database state: the five tables created by `_init_db`,
plus the AUTOINCREMENT counters (next id to be assigned) of `topics`,
`notes` and `tags`. -/
structure DB where
  topics : List TopicRow
  notes : List NoteRow
  tags : List TagRow
  note_tags : List NoteTagRow
  blocks : List BlockRow
  nextTopicId : Nat
  nextNoteId : Nat
  nextTagId : Nat
deriving DecidableEq

/-- The empty database right after `_init_db` on a fresh file. -/
def DB.empty : DB :=
  { topics := [], notes := [], tags := [], note_tags := [], blocks := []
    nextTopicId := 1, nextNoteId := 1, nextTagId := 1 }

/-- Exceptions surfaced by the manager: `ValueError` raised directly,
`DatabaseError` wrapping storage failures, `sqlite3.IntegrityError`
escaping uncaught (as in `create_topic`), and `NameError` from
referencing an identifier the module never imported (as in `get_note`,
whose `Note(...)` call at src/database.py:330 fails because database.py
imports only `Block`, `BlockType` and `BlockItem` from models). -/
inductive Err where
  | valueError (msg : String)
  | databaseError (msg : String)
  | integrityError (msg : String)
  | nameError (msg : String)
deriving DecidableEq

/-! ### Tag operations (src/database.py lines 384-416) -/

/-- `DatabaseManager.add_tag`: `INSERT INTO tags (name) VALUES (?)` with the
name exactly as given; on `sqlite3.IntegrityError` (UNIQUE on `tags.name`)
it falls back to `SELECT id FROM tags WHERE name = ?`. Returns the new
state and the returned tag id. -/
def addTag (db : DB) (name : String) : DB × Nat :=
  match db.tags.find? (fun t => t.name = name) with
  | some t => (db, t.id)
  | none =>
      ({ db with
          tags := db.tags ++ [⟨db.nextTagId, name⟩]
          nextTagId := db.nextTagId + 1 },
        db.nextTagId)

/-! ### Topic creation (src/database.py lines 118-126) -/

/-- `DatabaseManager.create_topic`: a bare
`INSERT INTO topics (name, parent_id) VALUES (?, ?)` with no validation of
`name`; a non-null `parent_id` must satisfy the foreign key to
`topics.id`, otherwise sqlite raises an IntegrityError, the context manager
rolls back, and the exception escapes uncaught. -/
def createTopic (db : DB) (name : String) (parent_id : Option Nat) :
    Except Err (DB × Nat) :=
  match parent_id with
  | some p =>
      if db.topics.any (fun t => t.id = p) then
        .ok ({ db with
                topics := db.topics ++ [⟨db.nextTopicId, name, some p⟩]
                nextTopicId := db.nextTopicId + 1 },
              db.nextTopicId)
      else
        .error (.integrityError "FOREIGN KEY constraint failed")
  | none =>
      .ok ({ db with
              topics := db.topics ++ [⟨db.nextTopicId, name, none⟩]
              nextTopicId := db.nextTopicId + 1 },
            db.nextTopicId)

/-! ### Topic deletion (src/database.py lines 418-435)

`DELETE FROM topics WHERE id = ?` removes the row with that id, and the
schema's `FOREIGN KEY (parent_id) REFERENCES topics (id) ON DELETE CASCADE`
then transitively removes every topic row whose parent chain leads to the
deleted row.  The set of removed rows is therefore exactly the rows from
which iterating `parent_id` lookups reaches `topic_id` (provided the
`topic_id` row itself exists).  `notes.topic_id` has `ON DELETE SET NULL`,
so notes referencing any removed topic get a null `topic_id`; `blocks` and
`note_tags` cascade from `notes` when notes are deleted. -/

/-- One step up the topic tree: the `parent_id` of the row with id `j`,
or `none` when no such row exists or the row is a root. -/
def parentStep (ts : List TopicRow) (j : Nat) : Option Nat :=
  match ts.find? (fun r => r.id = j) with
  | some r => r.parent_id
  | none => none

/-- `k`-fold iteration of `parentStep`. -/
def iterParent (ts : List TopicRow) : Nat → Nat → Option Nat
  | 0, j => some j
  | k + 1, j => (parentStep ts j).bind (iterParent ts k)

/-- `j` is in the subtree rooted at `root` for cascade purposes: the root
row exists and some iterated parent of `j` is `root`.  A chain without
repeated ids has length at most the number of rows, so the bounded search
is exact. -/
def inSubtree (ts : List TopicRow) (root j : Nat) : Bool :=
  ts.any (fun r => r.id = root) &&
    (List.range (ts.length + 1)).any (fun k => iterParent ts k j = some root)

/-- `j` lies on a `parent_id` cycle: following parent links some positive
number of times returns to `j`. -/
def OnCycle (ts : List TopicRow) (j : Nat) : Prop :=
  ∃ k : Nat, iterParent ts (k + 1) j = some j

/-- `DatabaseManager.delete_topic`.  First either
`DELETE FROM notes WHERE topic_id = ?` (when `delete_notes`) or
`UPDATE notes SET topic_id = NULL WHERE topic_id = ?`; then
`DELETE FROM topics WHERE id = ?`, whose `ON DELETE CASCADE` removes the
whole subtree of topic rows and whose note references are set to null by
`ON DELETE SET NULL`.  Deleting notes cascades to their `blocks` and
`note_tags` rows.  Returns the new state and `cursor.rowcount > 0` of the
final `DELETE FROM topics` statement. -/
def deleteTopic (db : DB) (topic_id : Nat) (delete_notes : Bool) : DB × Bool :=
  let db1 : DB :=
    if delete_notes then
      { db with
          notes := db.notes.filter (fun n => ¬ n.topic_id = some topic_id)
          blocks := db.blocks.filter (fun b =>
            ¬ db.notes.any (fun n => n.topic_id = some topic_id ∧ n.id = b.note_id))
          note_tags := db.note_tags.filter (fun a =>
            ¬ db.notes.any (fun n => n.topic_id = some topic_id ∧ n.id = a.note_id)) }
    else
      { db with
          notes := db.notes.map (fun n =>
            if n.topic_id = some topic_id then { n with topic_id := none } else n) }
  let sub := inSubtree db1.topics topic_id
  let db2 : DB :=
    { db1 with
        topics := db1.topics.filter (fun t => ¬ sub t.id)
        notes := db1.notes.map (fun n =>
          match n.topic_id with
          | some t => if sub t then { n with topic_id := none } else n
          | none => n) }
  (db2, db.topics.any (fun t => t.id = topic_id))

/-! ### Note saving (src/database.py lines 162-238) -/

/-- Foreign-key check for `notes.topic_id` (`REFERENCES topics (id)`). -/
def topicFKOk (db : DB) (tid : Option Nat) : Bool :=
  match tid with
  | some t => db.topics.any (fun r => r.id = t)
  | none => true

/-- The row `save_note` inserts for block `b` at enumerate index `i`
(`items_json = json.dumps([asdict(item) for item in block.items]) if
block.items else None`). -/
def blockRowOf (note_id : Nat) (i : Nat) (t : BlockType) (content : String)
    (b : PyBlock) : BlockRow :=
  { id := b.id, note_id := note_id, type := t.value, content := some content
    items_json := if b.items = [] then none else some (.payload b.items)
    level := b.level, position := (i : Int) }

/-- Constraints checked by the `INSERT INTO blocks` statement: primary key
uniqueness of `id`, the foreign key on `note_id`, `CHECK (level BETWEEN 1
AND 6)` and `CHECK (position >= 0)`. -/
def blockInsertOk (db : DB) (row : BlockRow) : Bool :=
  db.blocks.all (fun r => ¬ r.id = row.id) &&
    db.notes.any (fun n => n.id = row.note_id) &&
    (1 ≤ row.level && row.level ≤ 6) && 0 ≤ row.position

/-- The `for i, block in enumerate(note.blocks)` loop of `save_note`:
blocks lacking a `type` or `content` attribute are skipped with a warning;
for the rest an insert is attempted, and any failure becomes a
`DatabaseError` that aborts (and rolls back) the save. -/
def saveBlocks : DB → Nat → Nat → List PyBlock → Except Err DB
  | db, _, _, [] => .ok db
  | db, nid, i, b :: rest =>
      match b.type?, b.content? with
      | some t, some c =>
          let row := blockRowOf nid i t c b
          if blockInsertOk db row then
            saveBlocks { db with blocks := db.blocks ++ [row] } nid (i + 1) rest
          else
            .error (.databaseError "Failed to save block")
      | _, _ => saveBlocks db nid (i + 1) rest

/-- `INSERT OR IGNORE INTO tags (name)` followed by
`SELECT id FROM tags WHERE name = ?` in `_update_note_tags`. -/
def ensureTagIgnore (db : DB) (norm : String) : DB × Nat :=
  match db.tags.find? (fun t => t.name = norm) with
  | some t => (db, t.id)
  | none =>
      ({ db with
          tags := db.tags ++ [⟨db.nextTagId, norm⟩]
          nextTagId := db.nextTagId + 1 },
        db.nextTagId)

/-- The `for tag_name in set(tags)` loop of `_update_note_tags`: skip
blank names, normalize with `lower().strip()`, ensure the tag row, then
`INSERT OR IGNORE INTO note_tags`.  `OR IGNORE` absorbs the primary-key
conflict of an existing association but not a foreign-key violation, which
escapes as an error. -/
def attachTags : DB → Nat → List String → Except Err DB
  | db, _, [] => .ok db
  | db, nid, name :: rest =>
      if pyStrip name = "" then attachTags db nid rest
      else
        let norm := pyStrip (pyLower name)
        let p := ensureTagIgnore db norm
        if p.1.notes.any (fun n => n.id = nid) then
          let db2 :=
            if p.1.note_tags.any (fun a => a.note_id = nid ∧ a.tag_id = p.2) then p.1
            else { p.1 with note_tags := p.1.note_tags ++ [⟨nid, p.2⟩] }
          attachTags db2 nid rest
        else .error (.databaseError "Failed to save note")

/-- `DatabaseManager._update_note_tags`: `DELETE FROM note_tags WHERE
note_id = ?`, then the attach loop over `set(tags)`.  Python's set
iteration order is unspecified; `List.dedup` is one first-occurrence
representative, and the theorems below only use order-insensitive
consequences. -/
def updateNoteTags (db : DB) (note_id : Nat) (tags : List String) :
    Except Err DB :=
  let db0 := { db with
    note_tags := db.note_tags.filter (fun a => ¬ a.note_id = note_id) }
  attachTags db0 note_id tags.dedup

/-- The body of `save_note`'s `with` block after the title guard: insert or
update the note row, delete old blocks on the update path, insert the new
blocks, and replace the tag associations only when `note.tags` is truthy
(the `if hasattr(note, 'tags') and note.tags:` guard). -/
def saveNoteBody (db : DB) (note : PyNote) : Except Err (DB × Nat) :=
  match note.id with
  | none =>
      if topicFKOk db note.topic_id then
        let nid := db.nextNoteId
        let db1 := { db with
          notes := db.notes ++ [⟨nid, note.title, note.topic_id⟩]
          nextNoteId := db.nextNoteId + 1 }
        (saveBlocks db1 nid 0 note.blocks).bind fun db2 =>
        (if note.tags = [] then .ok db2 else updateNoteTags db2 nid note.tags).bind
          fun db3 => .ok (db3, nid)
      else .error (.databaseError "Failed to save note")
  | some nid =>
      -- the UPDATE only touches (and FK-checks) a row that actually exists
      if db.notes.any (fun n => n.id = nid) && ¬ topicFKOk db note.topic_id then
        .error (.databaseError "Failed to save note")
      else
        let db1 := { db with
          notes := db.notes.map (fun (n : NoteRow) =>
            if n.id = nid then { n with title := note.title, topic_id := note.topic_id }
            else n) }
        let db2 := { db1 with
          blocks := db1.blocks.filter (fun b => ¬ b.note_id = nid) }
        (saveBlocks db2 nid 0 note.blocks).bind fun db3 =>
        (if note.tags = [] then .ok db3 else updateNoteTags db3 nid note.tags).bind
          fun db4 => .ok (db4, nid)

/-- `DatabaseManager.save_note`: the empty-title guard, then the
transaction body. -/
def saveNote (db : DB) (note : PyNote) : Except Err (DB × Nat) :=
  if pyStrip note.title = "" then .error (.valueError "Note title cannot be empty")
  else saveNoteBody db note

/-- The committed state visible after a `save_note` call: the sqlite3
connection context manager commits on normal exit and rolls back when an
exception leaves the `with` block. -/
def saveNoteVisible (db : DB) (note : PyNote) : DB :=
  match saveNote db note with
  | .ok (db', _) => db'
  | .error _ => db

/-! ### Note loading (src/database.py lines 312-381) -/

/-- `@dataclass class Block` from src/models.py as reconstructed by
`get_note`. -/
structure Block where
  id : String
  type : BlockType
  content : String
  items : List BlockItem
  level : Int
deriving DecidableEq

/-- The in-memory `Note` that `get_note`'s found-row branch sets out to
build.  The branch never completes: `Note` is not in database.py's
namespace, so the constructor call raises `NameError` first (see
`getNote`).  The structure and the decoding below model the code from
line 330 onward, which is unreachable as written. -/
structure LoadedNote where
  id : Nat
  title : String
  topic_id : Option Nat
  blocks : List Block
  tags : List String
deriving DecidableEq

/-- Decoding of one `blocks` row in `get_note`'s loop (unreachable code,
see `getNote`): `BlockType(...)` raising `ValueError` or `json.loads`
raising `JSONDecodeError` skips the row (`continue`); `content` defaults
to `''` and `level` to `1` through `or`. -/
def readBlockRow (r : BlockRow) : Option Block :=
  match BlockType.ofValue r.type with
  | none => none
  | some t =>
      let base : Block :=
        { id := r.id, type := t, content := r.content.getD ""
          items := [], level := if r.level = 0 then 1 else r.level }
      match r.items_json with
      | none => some base
      | some (.payload items) => some { base with items := items }
      | some (.garbage _) => none

/-- `ORDER BY position` (positions written by `save_note` are distinct, so
any correct sort gives the same list). -/
def orderByPosition (rows : List BlockRow) : List BlockRow :=
  List.insertionSort (fun a b => a.position ≤ b.position) rows

/-- `DatabaseManager.get_note`: the positive-integer guard raises
`ValueError` before any query; a missing row yields `None`.  When a row
IS found, the branch evaluates `Note(...)` (src/database.py:330) — but
database.py imports only `Block`, `BlockType` and `BlockItem` from
models, so the name `Note` is undefined there and Python raises
`NameError` before the blocks query runs.  `NameError` is not an
`sqlite3.Error`, so the `except` clause does not catch it and it escapes
the caller (the context manager rolls back the read-only transaction).
The block decoding and tag join that follow line 330 (`readBlockRow`,
`orderByPosition`) are unreachable. -/
def getNote (db : DB) (note_id : Int) : Except Err (Option LoadedNote) :=
  if note_id ≤ 0 then .error (.valueError "Invalid note ID")
  else
    match db.notes.find? (fun n => (n.id : Int) = note_id) with
    | none => .ok none
    | some _ => .error (.nameError "name 'Note' is not defined")

/-! ### Search (src/database.py lines 469-528) -/

/-- SQLite `LIKE` compares letters case-insensitively (ASCII). -/
def charEqCI (a b : Char) : Bool := a.toLower = b.toLower

/-- SQLite `LIKE` pattern matching: `%` matches any (possibly empty) run
of characters — denotationally, some suffix of the text matches the rest
of the pattern — `_` matches any single character, and any other pattern
character matches one text character case-insensitively. -/
def likeMatch : List Char → List Char → Bool
  | [], s => s.isEmpty
  | p :: ps, s =>
      if p = '%' then s.tails.any (fun t => likeMatch ps t)
      else
        match s with
        | [] => false
        | c :: s' => (if p = '_' then true else charEqCI p c) && likeMatch ps s'

/-- The pattern `f'%{query}%'` built by `search_notes` (the raw query text,
not the stripped one). -/
def likePat (query : String) : List Char := '%' :: (query.data ++ ['%'])

/-- `expr LIKE pattern` on a string value. -/
def strLike (s : String) (pat : List Char) : Bool := likeMatch pat s.data

/-- Python truthiness of the optional `tag` argument (`if tag:`). -/
def tagTruthy : Option String → Bool
  | none => false
  | some t => ¬ t = ""

/-- The condition `(n.title LIKE ? OR n.id IN (SELECT DISTINCT note_id FROM
blocks WHERE content LIKE ?))` with parameter `%query%`.  A null `content`
never matches (`NULL LIKE x` is null). -/
def noteMatchesQuery (db : DB) (query : String) (n : NoteRow) : Bool :=
  strLike n.title (likePat query) ||
    db.blocks.any (fun b =>
      b.note_id = n.id &&
        (match b.content with
         | some c => strLike c (likePat query)
         | none => false))

/-- The condition `tag.name = ?` with parameter `tag.lower()`, routed
through the `note_tags`/`tags` joins: some associated tag row has exactly
the lowercased name. -/
def noteMatchesTag (db : DB) (t : String) (n : NoteRow) : Bool :=
  db.note_tags.any (fun a =>
    a.note_id = n.id &&
      db.tags.any (fun tr => tr.id = a.tag_id && tr.name = pyLower t))

/-- `DatabaseManager.search_notes`, as result-set membership: the guard
`if not query.strip() and not tag: return []`, then the `WHERE` clause
combining the two optional conditions with `AND`.  `GROUP BY n.id` makes
one summary row per matching note; the `ORDER BY n.updated_at DESC` and
the summary projection do not affect which notes are returned, so the
matching note rows are returned in table order. -/
def searchNotes (db : DB) (query : String) (tag : Option String) :
    List NoteRow :=
  if pyStrip query = "" ∧ ¬ tagTruthy tag then []
  else
    db.notes.filter (fun n =>
      (if ¬ pyStrip query = "" then noteMatchesQuery db query n else true) &&
        (match tag with
         | some t => if ¬ t = "" then noteMatchesTag db t n else true
         | none => true))

/-! ### Topics tree (src/database.py lines 128-149) -/

/-- One node of the forest returned by `get_topics_tree`
(`{**topic, 'children': []}` dictionaries). -/
structure TopicNode where
  id : Nat
  name : String
  parent_id : Option Nat
  children : List TopicNode

/-- `ORDER BY name` on the fetched topics. -/
def sortByName (ts : List TopicRow) : List TopicRow :=
  List.insertionSort (fun a b => a.name ≤ b.name) ts

/-- The children the loop attaches to the node of topic `i`: every fetched
topic whose `parent_id` is `i`, in iteration (name) order. -/
def childrenRows (ts : List TopicRow) (i : Nat) : List TopicRow :=
  ts.filter (fun r => r.parent_id = some i)

/-- Unfolding of the mutably-linked dictionaries from one topic downward,
to a bounded depth. -/
def buildNode (ts : List TopicRow) : Nat → TopicRow → TopicNode
  | 0, r => ⟨r.id, r.name, r.parent_id, []⟩
  | fuel + 1, r =>
      ⟨r.id, r.name, r.parent_id, (childrenRows ts r.id).map (buildNode ts fuel)⟩

/-- `DatabaseManager.get_topics_tree`.  The Python code links child
dictionaries into `parent['children']` by mutation and returns the list of
root dictionaries (topics with null `parent_id`).  Every node reachable
from a returned root has a strictly longer acyclic parent chain than its
parent, so (with primary-key-distinct ids) the reachable part of the graph
is a forest of depth less than the number of topics, and unfolding to
depth `ts.length` reproduces the returned value exactly. -/
def getTopicsTree (db : DB) : List TopicNode :=
  let ts := sortByName db.topics
  (ts.filter (fun r => r.parent_id = none)).map (buildNode ts ts.length)

/-- Whether a topic id occurs anywhere in a returned node (as the node
itself or any transitive child). -/
def occursIn (j : Nat) : TopicNode → Bool
  | ⟨i, _, _, cs⟩ => i = j || cs.attach.any (fun c => occursIn j c.1)
decreasing_by
  simp only [TopicNode.mk.sizeOf_spec]
  have := List.sizeOf_lt_of_mem c.2
  omega

/-- Whether a topic id occurs anywhere in the returned forest. -/
def occursForest (f : List TopicNode) (j : Nat) : Bool :=
  f.any (occursIn j)

/-- The parent chain of a row reaches a root (null `parent_id`) through
rows present in `ts`. -/
inductive Rooted (ts : List TopicRow) : TopicRow → Prop where
  | isRoot (t : TopicRow) : t.parent_id = none → Rooted ts t
  | step (t p : TopicRow) : t.parent_id = some p.id → p ∈ ts → Rooted ts p →
      Rooted ts t

/-! ### Concrete states used to instantiate the theorems -/

/-- Topic 1 with child topic 2, and one note filed in topic 2. -/
def exDb1 : DB :=
  { topics := [⟨1, "A", none⟩, ⟨2, "B", some 1⟩]
    notes := [⟨10, "n", some 2⟩]
    tags := [], note_tags := [], blocks := []
    nextTopicId := 3, nextNoteId := 11, nextTagId := 1 }

/-- Same shape as `exDb1`, for the promotion claim. -/
def exDb5 : DB :=
  { topics := [⟨1, "Work", none⟩, ⟨2, "Sub", some 1⟩]
    notes := [⟨7, "Plan", some 2⟩]
    tags := [], note_tags := [], blocks := []
    nextTopicId := 3, nextNoteId := 8, nextTagId := 1 }

/-- One note that already carries a tag association. -/
def exDb4 : DB :=
  { topics := [], notes := [⟨1, "t", none⟩]
    tags := [⟨1, "todo"⟩], note_tags := [⟨1, 1⟩], blocks := []
    nextTopicId := 1, nextNoteId := 2, nextTagId := 2 }

/-- The block rows a completed save stores for note `nid` from enumerate
index `i` on: one row per block that has both attributes, at its original
enumerate index. -/
def expectedRowsFrom (nid : Nat) : Nat → List PyBlock → List BlockRow
  | _, [] => []
  | i, b :: rest =>
      match b.type?, b.content? with
      | some t, some c => blockRowOf nid i t c b :: expectedRowsFrom nid (i + 1) rest
      | _, _ => expectedRowsFrom nid (i + 1) rest

/-- The stored name of a tag id. -/
def tagNameOf (db : DB) (tid : Nat) : Option String :=
  (db.tags.find? (fun t => t.id = tid)).map TagRow.name

/-- Invariants of the `tags` table that sqlite maintains: ids below the
AUTOINCREMENT counter, primary-key-distinct ids, UNIQUE names. -/
def TagInv (db : DB) : Prop :=
  (∀ t ∈ db.tags, t.id < db.nextTagId) ∧
    (db.tags.map TagRow.id).Nodup ∧ (db.tags.map TagRow.name).Nodup

/-- Invariants sqlite maintains on the tables involved in the save/load
round trip: positive note ids below the AUTOINCREMENT counter, the
foreign key from `blocks.note_id` to `notes.id`, and the tag invariants. -/
def WF (db : DB) : Prop :=
  (∀ n ∈ db.notes, 1 ≤ n.id ∧ n.id < db.nextNoteId) ∧
    (∀ b ∈ db.blocks, db.notes.any (fun n => n.id = b.note_id) = true) ∧
    1 ≤ db.nextNoteId ∧ TagInv db

/-- The note id a `save_note` call operates on: the existing id, or the
row id the insert will assign. -/
def targetNoteId (db : DB) (note : PyNote) : Nat :=
  match note.id with
  | some j => j
  | none => db.nextNoteId

/-- The query contains no SQL LIKE wildcard characters. -/
def noWildcards (q : String) : Prop := ∀ c ∈ q.data, ¬ c = '%' ∧ ¬ c = '_'

/-- Case-insensitive substring containment (ASCII), the matching policy the
spec states for non-blank queries. -/
def containsCI (needle hay : String) : Prop :=
  needle.data.map Char.toLower <:+: hay.data.map Char.toLower

/-- One note titled "a" and nothing else. -/
def exDb8 : DB :=
  { topics := [], notes := [⟨1, "a", none⟩], tags := [], note_tags := []
    blocks := [], nextTopicId := 1, nextNoteId := 2, nextTagId := 1 }

/-- A root, a topic with a dangling parent reference, and a two-cycle. -/
def exDb10 : DB :=
  { topics := [⟨1, "root", none⟩, ⟨2, "dangling", some 99⟩,
               ⟨3, "c1", some 4⟩, ⟨4, "c2", some 3⟩]
    notes := [], tags := [], note_tags := [], blocks := []
    nextTopicId := 5, nextNoteId := 1, nextTagId := 1 }

/-- The state after saving the note "Plan" with one valid TEXT block into
a fresh database. -/
def exDb2saved : DB :=
  { topics := [], notes := [⟨1, "Plan", none⟩], tags := [], note_tags := []
    blocks := [⟨"b1", 1, "text", some "draft", none, 1, 0⟩]
    nextTopicId := 1, nextNoteId := 2, nextTagId := 1 }

/-! ## Theorems -/

/-! ### Helper lemmas on the tag machinery -/

theorem ensureTag_notes (db : DB) (norm : String) :
    (ensureTagIgnore db norm).1.notes = db.notes := by
  unfold ensureTagIgnore
  cases h : db.tags.find? (fun t => t.name = norm) <;> rfl

theorem ensureTag_spec (db : DB) (norm : String) (hinv : TagInv db) :
    (ensureTagIgnore db norm).1.notes = db.notes ∧
    (ensureTagIgnore db norm).1.note_tags = db.note_tags ∧
    (ensureTagIgnore db norm).1.blocks = db.blocks ∧
    (ensureTagIgnore db norm).1.topics = db.topics ∧
    (ensureTagIgnore db norm).1.nextNoteId = db.nextNoteId ∧
    (ensureTagIgnore db norm).1.nextTopicId = db.nextTopicId ∧
    tagNameOf (ensureTagIgnore db norm).1 (ensureTagIgnore db norm).2 = some norm ∧
    (∀ i r, db.tags.find? (fun t => t.id = i) = some r →
      (ensureTagIgnore db norm).1.tags.find? (fun t => t.id = i) = some r) ∧
    TagInv (ensureTagIgnore db norm).1 := by
  obtain ⟨hlt, hids, hnames⟩ := hinv
  unfold ensureTagIgnore
  cases h : db.tags.find? (fun t => t.name = norm) with
  | some t =>
      dsimp only
      refine ⟨rfl, rfl, rfl, rfl, rfl, rfl, ?_, fun i r hr => hr, hlt, hids, hnames⟩
      have htmem := List.mem_of_find?_eq_some h
      have htname : t.name = norm := by simpa using List.find?_some h
      unfold tagNameOf
      cases hf : db.tags.find? (fun r => r.id = t.id) with
      | none =>
          rw [List.find?_eq_none] at hf
          exact absurd (by simp : t.id = t.id) (by simpa using hf t htmem)
      | some r =>
          have hrmem := List.mem_of_find?_eq_some hf
          have hrid : r.id = t.id := by simpa using List.find?_some hf
          have hrt : r = t := List.inj_on_of_nodup_map hids hrmem htmem hrid
          rw [hrt]
          simp [htname]
  | none =>
      have hnew : ∀ t ∈ db.tags, ¬ t.id = db.nextTagId := by
        intro t ht heq
        exact absurd (hlt t ht) (by omega)
      have hzero : db.tags.find? (fun t => t.id = db.nextTagId) = none := by
        rw [List.find?_eq_none]
        intro t ht
        simpa using hnew t ht
      refine ⟨rfl, rfl, rfl, rfl, rfl, rfl, ?_, ?_, ?_, ?_, ?_⟩
      · show ((db.tags ++ [(⟨db.nextTagId, norm⟩ : TagRow)]).find?
            (fun t => t.id = db.nextTagId)).map TagRow.name = some norm
        rw [List.find?_append, hzero]
        simp [List.find?]
      · intro i r hr
        show (db.tags ++ [(⟨db.nextTagId, norm⟩ : TagRow)]).find? (fun t => t.id = i) = some r
        rw [List.find?_append, hr]
        rfl
      · intro t ht
        show t.id < db.nextTagId + 1
        rcases List.mem_append.1 ht with h1 | h2
        · exact Nat.lt_succ_of_lt (hlt t h1)
        · simp only [List.mem_singleton] at h2
          subst h2
          exact Nat.lt_succ_self _
      · show ((db.tags ++ [(⟨db.nextTagId, norm⟩ : TagRow)]).map TagRow.id).Nodup
        rw [List.map_append, List.nodup_append]
        refine ⟨hids, by simp, ?_⟩
        intro a ha hb
        simp only [List.map_cons, List.map_nil, List.mem_singleton] at hb
        subst hb
        rcases List.mem_map.1 ha with ⟨t, ht, hid⟩
        exact hnew t ht hid
      · show ((db.tags ++ [(⟨db.nextTagId, norm⟩ : TagRow)]).map TagRow.name).Nodup
        rw [List.map_append, List.nodup_append]
        refine ⟨hnames, by simp, ?_⟩
        intro a ha hb
        simp only [List.map_cons, List.map_nil, List.mem_singleton] at hb
        subst hb
        rcases List.mem_map.1 ha with ⟨t, ht, hname⟩
        rw [List.find?_eq_none] at h
        exact absurd (by simpa using hname) (by simpa using h t ht)

theorem attachTags_spec (names : List String) :
    ∀ (db : DB) (nid : Nat) (db' : DB), TagInv db →
      attachTags db nid names = .ok db' →
      (db'.notes = db.notes ∧ db'.blocks = db.blocks ∧ db'.topics = db.topics ∧
        db'.nextNoteId = db.nextNoteId ∧ db'.nextTopicId = db.nextTopicId) ∧
      TagInv db' ∧
      (∀ i r, db.tags.find? (fun t => t.id = i) = some r →
        db'.tags.find? (fun t => t.id = i) = some r) ∧
      (∀ a ∈ db.note_tags, a ∈ db'.note_tags) ∧
      (∀ a ∈ db'.note_tags, a ∈ db.note_tags ∨
        (a.note_id = nid ∧ ∃ name ∈ names, ¬ pyStrip name = "" ∧
          tagNameOf db' a.tag_id = some (pyStrip (pyLower name)))) ∧
      (∀ name ∈ names, ¬ pyStrip name = "" →
        ∃ a ∈ db'.note_tags, a.note_id = nid ∧
          tagNameOf db' a.tag_id = some (pyStrip (pyLower name))) := by
  induction names with
  | nil =>
      intro db nid db' hinv hok
      simp only [attachTags] at hok
      injection hok with hok
      subst hok
      refine ⟨⟨rfl, rfl, rfl, rfl, rfl⟩, hinv, fun i r hr => hr, fun a ha => ha,
        fun a ha => Or.inl ha, ?_⟩
      intro name hname
      exact absurd hname (List.not_mem_nil name)
  | cons name rest ih =>
      intro db nid db' hinv hok
      simp only [attachTags] at hok
      by_cases hblank : pyStrip name = ""
      · rw [if_pos hblank] at hok
        obtain ⟨hframe, hinv', hfind, hmono, hchar, hcomp⟩ := ih db nid db' hinv hok
        refine ⟨hframe, hinv', hfind, hmono, ?_, ?_⟩
        · intro a ha
          rcases hchar a ha with h1 | ⟨h2, nm, hnm, hnb, htag⟩
          · exact Or.inl h1
          · exact Or.inr ⟨h2, nm, List.mem_cons_of_mem _ hnm, hnb, htag⟩
        · intro nm hnm hnb
          rcases List.mem_cons.1 hnm with h1 | h2
          · subst h1; exact absurd hblank hnb
          · exact hcomp nm h2 hnb
      · rw [if_neg hblank] at hok
        obtain ⟨he_notes, he_nt, he_blocks, he_topics, he_nnid, he_ntid, he_name,
          he_find, he_inv⟩ := ensureTag_spec db (pyStrip (pyLower name)) hinv
        by_cases hfk :
            (ensureTagIgnore db (pyStrip (pyLower name))).1.notes.any
              (fun n => n.id = nid) = true
        · rw [if_pos hfk] at hok
          -- the state after the (possibly absorbed) association insert
          by_cases hdup :
              (ensureTagIgnore db (pyStrip (pyLower name))).1.note_tags.any
                (fun a => a.note_id = nid ∧
                  a.tag_id = (ensureTagIgnore db (pyStrip (pyLower name))).2) = true
          all_goals
            first
            | rw [if_pos hdup] at hok
            | rw [if_neg hdup] at hok
          -- duplicate-association case: db2 = the ensured state
          case pos =>
            obtain ⟨hframe, hinv', hfind, hmono, hchar, hcomp⟩ :=
              ih _ nid db' he_inv hok
            have htagname : tagNameOf db'
                (ensureTagIgnore db (pyStrip (pyLower name))).2 =
                some (pyStrip (pyLower name)) := by
              unfold tagNameOf at he_name ⊢
              rcases Option.map_eq_some'.1 he_name with ⟨r, hr, hrname⟩
              rw [hfind _ _ hr]
              simp [hrname]
            refine ⟨?_, hinv', ?_, ?_, ?_, ?_⟩
            · exact ⟨hframe.1.trans he_notes, hframe.2.1.trans he_blocks,
                hframe.2.2.1.trans he_topics, hframe.2.2.2.1.trans he_nnid,
                hframe.2.2.2.2.trans he_ntid⟩
            · intro i r hr
              exact hfind i r (he_find i r hr)
            · intro a ha
              exact hmono a (by rw [he_nt]; exact ha)
            · intro a ha
              rcases hchar a ha with h1 | ⟨h2, nm, hnm, hnb, htag⟩
              · rw [he_nt] at h1
                exact Or.inl h1
              · exact Or.inr ⟨h2, nm, List.mem_cons_of_mem _ hnm, hnb, htag⟩
            · intro nm hnm hnb
              rcases List.mem_cons.1 hnm with h1 | h2
              · subst h1
                simp only [List.any_eq_true, decide_eq_true_eq] at hdup
                rcases hdup with ⟨a0, ha0, ha0n, ha0t⟩
                refine ⟨a0, hmono a0 ha0, ha0n, ?_⟩
                rw [ha0t]
                exact htagname
              · exact hcomp nm h2 hnb
          -- fresh-association case: db2 appends ⟨nid, tag id⟩
          case neg =>
            obtain ⟨hframe, hinv', hfind, hmono, hchar, hcomp⟩ :=
              ih { (ensureTagIgnore db (pyStrip (pyLower name))).1 with
                    note_tags :=
                      (ensureTagIgnore db (pyStrip (pyLower name))).1.note_tags ++
                        [⟨nid, (ensureTagIgnore db (pyStrip (pyLower name))).2⟩] }
                nid db' he_inv hok
            have htagname : tagNameOf db'
                (ensureTagIgnore db (pyStrip (pyLower name))).2 =
                some (pyStrip (pyLower name)) := by
              unfold tagNameOf at he_name ⊢
              rcases Option.map_eq_some'.1 he_name with ⟨r, hr, hrname⟩
              rw [hfind _ _ hr]
              simp [hrname]
            have hnew_mem :
                (⟨nid, (ensureTagIgnore db (pyStrip (pyLower name))).2⟩ : NoteTagRow) ∈
                  db'.note_tags := by
              apply hmono
              show (⟨nid, (ensureTagIgnore db (pyStrip (pyLower name))).2⟩ : NoteTagRow) ∈
                (ensureTagIgnore db (pyStrip (pyLower name))).1.note_tags ++
                  [⟨nid, (ensureTagIgnore db (pyStrip (pyLower name))).2⟩]
              exact List.mem_append_right _ (List.mem_singleton.2 rfl)
            refine ⟨?_, hinv', ?_, ?_, ?_, ?_⟩
            · exact ⟨hframe.1.trans he_notes, hframe.2.1.trans he_blocks,
                hframe.2.2.1.trans he_topics, hframe.2.2.2.1.trans he_nnid,
                hframe.2.2.2.2.trans he_ntid⟩
            · intro i r hr
              exact hfind i r (he_find i r hr)
            · intro a ha
              apply hmono
              show a ∈ (ensureTagIgnore db (pyStrip (pyLower name))).1.note_tags ++
                [⟨nid, (ensureTagIgnore db (pyStrip (pyLower name))).2⟩]
              apply List.mem_append_left
              rw [he_nt]
              exact ha
            · intro a ha
              rcases hchar a ha with h1 | ⟨h2, nm, hnm, hnb, htag⟩
              · have h1' : a ∈ (ensureTagIgnore db (pyStrip (pyLower name))).1.note_tags ++
                    [⟨nid, (ensureTagIgnore db (pyStrip (pyLower name))).2⟩] := h1
                rcases List.mem_append.1 h1' with hl | hr
                · rw [he_nt] at hl
                  exact Or.inl hl
                · simp only [List.mem_singleton] at hr
                  subst hr
                  exact Or.inr ⟨rfl, name, List.mem_cons_self _ _, hblank, htagname⟩
              · exact Or.inr ⟨h2, nm, List.mem_cons_of_mem _ hnm, hnb, htag⟩
            · intro nm hnm hnb
              rcases List.mem_cons.1 hnm with h1 | h2
              · subst h1
                exact ⟨_, hnew_mem, rfl, htagname⟩
              · exact hcomp nm h2 hnb
        · rw [if_neg hfk] at hok
          cases hok

theorem updateNoteTags_spec (db : DB) (nid : Nat) (tags : List String) (db' : DB)
    (hinv : TagInv db) (hok : updateNoteTags db nid tags = .ok db') :
    (db'.notes = db.notes ∧ db'.blocks = db.blocks ∧ db'.topics = db.topics ∧
      db'.nextNoteId = db.nextNoteId ∧ db'.nextTopicId = db.nextTopicId) ∧
    TagInv db' ∧
    (∀ a ∈ db.note_tags, ¬ a.note_id = nid → a ∈ db'.note_tags) ∧
    (∀ a ∈ db'.note_tags, (a ∈ db.note_tags ∧ ¬ a.note_id = nid) ∨
      (a.note_id = nid ∧ ∃ name ∈ tags, ¬ pyStrip name = "" ∧
        tagNameOf db' a.tag_id = some (pyStrip (pyLower name)))) ∧
    (∀ name ∈ tags, ¬ pyStrip name = "" →
      ∃ a ∈ db'.note_tags, a.note_id = nid ∧
        tagNameOf db' a.tag_id = some (pyStrip (pyLower name))) := by
  unfold updateNoteTags at hok
  obtain ⟨hframe, hinv', hfind, hmono, hchar, hcomp⟩ :=
    attachTags_spec tags.dedup
      { db with note_tags := db.note_tags.filter (fun a => ¬ a.note_id = nid) }
      nid db' hinv hok
  refine ⟨⟨hframe.1, hframe.2.1, hframe.2.2.1, hframe.2.2.2.1, hframe.2.2.2.2⟩,
    hinv', ?_, ?_, ?_⟩
  · intro a ha hanid
    apply hmono
    show a ∈ db.note_tags.filter (fun a => ¬ a.note_id = nid)
    exact List.mem_filter.2 ⟨ha, by simpa using hanid⟩
  · intro a ha
    rcases hchar a ha with h1 | ⟨h2, nm, hnm, hnb, htag⟩
    · have h1' : a ∈ db.note_tags.filter (fun a => ¬ a.note_id = nid) := h1
      rcases List.mem_filter.1 h1' with ⟨hmem, hpred⟩
      exact Or.inl ⟨hmem, by simpa using hpred⟩
    · exact Or.inr ⟨h2, nm, List.mem_dedup.1 hnm, hnb, htag⟩
  · intro nm hnm hnb
    exact hcomp nm (List.mem_dedup.2 hnm) hnb

theorem saveBlocks_ok_spec (bs : List PyBlock) :
    ∀ (db : DB) (nid : Nat) (i : Nat) (db' : DB),
      saveBlocks db nid i bs = .ok db' →
      db'.blocks = db.blocks ++ expectedRowsFrom nid i bs ∧
      db'.notes = db.notes ∧ db'.tags = db.tags ∧ db'.note_tags = db.note_tags ∧
      db'.topics = db.topics ∧ db'.nextNoteId = db.nextNoteId ∧
      db'.nextTagId = db.nextTagId ∧ db'.nextTopicId = db.nextTopicId := by
  induction bs with
  | nil =>
      intro db nid i db' hok
      simp only [saveBlocks] at hok
      injection hok with hok
      subst hok
      simp [expectedRowsFrom]
  | cons b rest ih =>
      intro db nid i db' hok
      simp only [saveBlocks] at hok
      cases hbt : b.type? with
      | none =>
          simp only [hbt] at hok
          obtain ⟨h1, h⟩ := ih db nid (i + 1) db' hok
          refine ⟨?_, h⟩
          rw [h1]
          simp [expectedRowsFrom, hbt]
      | some t =>
          cases hbc : b.content? with
          | none =>
              simp only [hbt, hbc] at hok
              obtain ⟨h1, h⟩ := ih db nid (i + 1) db' hok
              refine ⟨?_, h⟩
              rw [h1]
              simp [expectedRowsFrom, hbt, hbc]
          | some c =>
              simp only [hbt, hbc] at hok
              by_cases hins : blockInsertOk db (blockRowOf nid i t c b) = true
              · rw [if_pos hins] at hok
                obtain ⟨h1, h⟩ :=
                  ih { db with blocks := db.blocks ++ [blockRowOf nid i t c b] }
                    nid (i + 1) db' hok
                refine ⟨?_, h⟩
                rw [h1]
                show db.blocks ++ [blockRowOf nid i t c b] ++
                    expectedRowsFrom nid (i + 1) rest = _
                rw [List.append_assoc]
                simp [expectedRowsFrom, hbt, hbc]
              · rw [if_neg hins] at hok
                cases hok

theorem saveBlocks_succeeds (bs : List PyBlock) :
    ∀ (db : DB) (nid : Nat) (i : Nat),
      (∀ b ∈ bs, b.type?.isSome ∧ b.content?.isSome ∧ 1 ≤ b.level ∧ b.level ≤ 6) →
      (bs.map PyBlock.id).Nodup →
      (∀ b ∈ bs, ∀ r ∈ db.blocks, ¬ r.id = b.id) →
      db.notes.any (fun n => n.id = nid) = true →
      ∃ db', saveBlocks db nid i bs = .ok db' := by
  induction bs with
  | nil => intro db nid i _ _ _ _; exact ⟨db, rfl⟩
  | cons b rest ih =>
      intro db nid i hvalid hnodup hfresh hnote
      obtain ⟨ht, hc, hl1, hl2⟩ := hvalid b (List.mem_cons_self _ _)
      obtain ⟨t, htt⟩ := Option.isSome_iff_exists.1 ht
      obtain ⟨c, hcc⟩ := Option.isSome_iff_exists.1 hc
      have hnodup' : (PyBlock.id b :: rest.map PyBlock.id).Nodup := by
        rw [← List.map_cons]
        exact hnodup
      obtain ⟨hbnotmem, htail⟩ := List.nodup_cons.1 hnodup'
      have hins : blockInsertOk db (blockRowOf nid i t c b) = true := by
        unfold blockInsertOk
        simp only [Bool.and_eq_true, List.all_eq_true, decide_eq_true_eq]
        refine ⟨⟨⟨?_, ?_⟩, ?_, ?_⟩, ?_⟩
        · intro r hr
          exact hfresh b (List.mem_cons_self _ _) r hr
        · exact hnote
        · exact hl1
        · exact hl2
        · exact Int.ofNat_nonneg i
      have hgoal : ∃ db',
          saveBlocks { db with blocks := db.blocks ++ [blockRowOf nid i t c b] }
            nid (i + 1) rest = .ok db' := by
        apply ih
        · intro b' hb'
          exact hvalid b' (List.mem_cons_of_mem _ hb')
        · exact htail
        · intro b' hb' r hr
          rcases List.mem_append.1 hr with hrold | hrnew
          · exact hfresh b' (List.mem_cons_of_mem _ hb') r hrold
          · simp only [List.mem_singleton] at hrnew
            subst hrnew
            show ¬ b.id = b'.id
            intro hcontra
            exact hbnotmem (hcontra ▸ List.mem_map_of_mem PyBlock.id hb')
        · exact hnote
      obtain ⟨db', hdb'⟩ := hgoal
      refine ⟨db', ?_⟩
      simp only [saveBlocks, htt, hcc]
      rw [if_pos hins]
      exact hdb'

theorem attachTags_succeeds (names : List String) :
    ∀ (db : DB) (nid : Nat), db.notes.any (fun n => n.id = nid) = true →
      ∃ db', attachTags db nid names = .ok db' := by
  induction names with
  | nil => intro db nid _; exact ⟨db, rfl⟩
  | cons name rest ih =>
      intro db nid hnote
      simp only [attachTags]
      by_cases hblank : pyStrip name = ""
      · rw [if_pos hblank]
        exact ih db nid hnote
      · rw [if_neg hblank]
        have hfk : (ensureTagIgnore db (pyStrip (pyLower name))).1.notes.any
            (fun n => n.id = nid) = true := by
          rw [ensureTag_notes db (pyStrip (pyLower name))]
          exact hnote
        rw [if_pos hfk]
        by_cases hdup :
            (ensureTagIgnore db (pyStrip (pyLower name))).1.note_tags.any
              (fun a => a.note_id = nid ∧
                a.tag_id = (ensureTagIgnore db (pyStrip (pyLower name))).2) = true
        · rw [if_pos hdup]
          exact ih _ nid hfk
        · rw [if_neg hdup]
          apply ih
          show (ensureTagIgnore db (pyStrip (pyLower name))).1.notes.any
            (fun n => n.id = nid) = true
          exact hfk

theorem expectedRows_note_id (bs : List PyBlock) :
    ∀ (nid : Nat) (i : Nat), ∀ r ∈ expectedRowsFrom nid i bs,
      r.note_id = nid ∧ (i : Int) ≤ r.position := by
  induction bs with
  | nil => intro nid i r hr; exact absurd hr (List.not_mem_nil r)
  | cons b rest ih =>
      intro nid i r hr
      unfold expectedRowsFrom at hr
      cases hbt : b.type? with
      | none =>
          rw [hbt] at hr
          obtain ⟨h1, h2⟩ := ih nid (i + 1) r hr
          exact ⟨h1, by omega⟩
      | some t =>
          cases hbc : b.content? with
          | none =>
              rw [hbt, hbc] at hr
              obtain ⟨h1, h2⟩ := ih nid (i + 1) r hr
              exact ⟨h1, by omega⟩
          | some c =>
              rw [hbt, hbc] at hr
              rcases List.mem_cons.1 hr with h1 | h2
              · subst h1
                exact ⟨rfl, by simp [blockRowOf]⟩
              · obtain ⟨h1, h2⟩ := ih nid (i + 1) r h2
                exact ⟨h1, by omega⟩

theorem expectedRows_sorted (bs : List PyBlock) :
    ∀ (nid : Nat) (i : Nat),
      List.Sorted (fun a b : BlockRow => a.position ≤ b.position)
        (expectedRowsFrom nid i bs) := by
  induction bs with
  | nil => intro nid i; simp [expectedRowsFrom, List.Sorted]
  | cons b rest ih =>
      intro nid i
      unfold expectedRowsFrom
      cases hbt : b.type? with
      | none => exact ih nid (i + 1)
      | some t =>
          cases hbc : b.content? with
          | none => exact ih nid (i + 1)
          | some c =>
              refine List.Pairwise.cons ?_ (ih nid (i + 1))
              intro r hr
              have := (expectedRows_note_id rest nid (i + 1) r hr).2
              show (blockRowOf nid i t c b).position ≤ r.position
              simp only [blockRowOf]
              omega

theorem readBlockRow_roundtrip (nid i : Nat) (t : BlockType) (c : String)
    (b : PyBlock) (hlevel : ¬ b.level = 0) :
    readBlockRow (blockRowOf nid i t c b) =
      some { id := b.id, type := t, content := c, items := b.items, level := b.level } := by
  have hofv : BlockType.ofValue t.value = some t := by
    cases t <;> rfl
  unfold readBlockRow blockRowOf
  simp only [hofv]
  by_cases hitems : b.items = []
  · rw [if_pos hitems]
    simp [hitems, hlevel]
  · rw [if_neg hitems]
    simp [hlevel]

theorem expectedRows_decode (bs : List PyBlock) :
    ∀ (nid : Nat) (i : Nat),
      (∀ b ∈ bs, b.type?.isSome ∧ b.content?.isSome ∧ 1 ≤ b.level ∧ b.level ≤ 6) →
      ((expectedRowsFrom nid i bs).filterMap readBlockRow).map Block.id =
          bs.map PyBlock.id ∧
        ((expectedRowsFrom nid i bs).filterMap readBlockRow).length = bs.length := by
  induction bs with
  | nil => intro nid i _; simp [expectedRowsFrom]
  | cons b rest ih =>
      intro nid i hvalid
      obtain ⟨ht, hc, hl1, _⟩ := hvalid b (List.mem_cons_self _ _)
      obtain ⟨t, htt⟩ := Option.isSome_iff_exists.1 ht
      obtain ⟨c, hcc⟩ := Option.isSome_iff_exists.1 hc
      have hrest := ih nid (i + 1) (fun b' hb' => hvalid b' (List.mem_cons_of_mem _ hb'))
      have hlevel : ¬ b.level = 0 := by omega
      unfold expectedRowsFrom
      rw [htt, hcc]
      rw [List.filterMap_cons, readBlockRow_roundtrip nid i t c b hlevel]
      simp only [List.map_cons, List.length_cons]
      exact ⟨by rw [hrest.1], by rw [hrest.2]⟩

/-- What a successful `save_note` commits: the note row inserted or
updated, the blocks for the note replaced by exactly the valid blocks at
their enumerate positions, other notes' blocks untouched, and the tag
associations changed only when `note.tags` is non-empty (in which case
they are replaced by the normalized non-blank names). -/
theorem saveNote_ok_spec (db : DB) (note : PyNote) (db' : DB) (nid : Nat)
    (hwf : WF db) (hok : saveNote db note = .ok (db', nid)) :
    nid = targetNoteId db note ∧
    db'.blocks =
      db.blocks.filter (fun b => ¬ b.note_id = nid) ++
        expectedRowsFrom nid 0 note.blocks ∧
    db'.notes =
      (match note.id with
       | none => db.notes ++ [⟨nid, note.title, note.topic_id⟩]
       | some _ => db.notes.map (fun (n : NoteRow) =>
          if n.id = nid then { n with title := note.title, topic_id := note.topic_id }
          else n)) ∧
    db'.topics = db.topics ∧
    (note.tags = [] → db'.note_tags = db.note_tags) ∧
    (¬ note.tags = [] →
      (∀ a ∈ db.note_tags, ¬ a.note_id = nid → a ∈ db'.note_tags) ∧
      (∀ a ∈ db'.note_tags, (a ∈ db.note_tags ∧ ¬ a.note_id = nid) ∨
        (a.note_id = nid ∧ ∃ name ∈ note.tags, ¬ pyStrip name = "" ∧
          tagNameOf db' a.tag_id = some (pyStrip (pyLower name)))) ∧
      (∀ name ∈ note.tags, ¬ pyStrip name = "" →
        ∃ a ∈ db'.note_tags, a.note_id = nid ∧
          tagNameOf db' a.tag_id = some (pyStrip (pyLower name)))) := by
  obtain ⟨hwfn, hwfb, hwfc, hwft⟩ := hwf
  unfold saveNote at hok
  by_cases htitle : pyStrip note.title = ""
  · rw [if_pos htitle] at hok; cases hok
  rw [if_neg htitle] at hok
  unfold saveNoteBody at hok
  cases hidc : note.id with
  | none =>
      simp only [hidc] at hok
      by_cases hfk : topicFKOk db note.topic_id = true
      swap
      · rw [if_neg hfk] at hok; cases hok
      rw [if_pos hfk] at hok
      cases hsb : saveBlocks
          { db with
              notes := db.notes ++ [⟨db.nextNoteId, note.title, note.topic_id⟩]
              nextNoteId := db.nextNoteId + 1 }
          db.nextNoteId 0 note.blocks with
      | error e => rw [hsb] at hok; cases hok
      | ok db2 =>
          rw [hsb] at hok
          simp only [Except.bind] at hok
          obtain ⟨hb2blocks, hb2notes, hb2tags, hb2nt, hb2topics, hb2nnid,
            hb2ntid, hb2ntop⟩ := saveBlocks_ok_spec note.blocks _ _ _ _ hsb
          have hold_ne : ∀ r ∈ db.blocks, ¬ r.note_id = db.nextNoteId := by
            intro r hr heq
            rcases List.any_eq_true.1 (hwfb r hr) with ⟨n, hn, hnidr⟩
            simp only [decide_eq_true_eq] at hnidr
            have := (hwfn n hn).2
            omega
          have hfilter_id :
              db.blocks.filter (fun b => ¬ b.note_id = db.nextNoteId) = db.blocks :=
            List.filter_eq_self.2 (fun r hr => by simpa using hold_ne r hr)
          by_cases htags : note.tags = []
          · rw [if_pos htags] at hok
            simp only [Except.bind] at hok
            have hpair := Except.ok.inj hok
            have hdb : db2 = db' := congrArg Prod.fst hpair
            have hnid : db.nextNoteId = nid := congrArg Prod.snd hpair
            subst hdb
            subst hnid
            refine ⟨by simp [targetNoteId, hidc], ?_, ?_, ?_, fun _ => ?_,
              fun hcon => absurd htags hcon⟩
            · rw [hb2blocks, hfilter_id]
            · rw [hb2notes]
            · rw [hb2topics]
            · rw [hb2nt]
          · rw [if_neg htags] at hok
            cases hup : updateNoteTags db2 db.nextNoteId note.tags with
            | error e => rw [hup] at hok; cases hok
            | ok db3 =>
                rw [hup] at hok
                simp only [Except.bind] at hok
                have hpair := Except.ok.inj hok
                have hdb : db3 = db' := congrArg Prod.fst hpair
                have hnid : db.nextNoteId = nid := congrArg Prod.snd hpair
                subst hdb
                subst hnid
                have hinv2 : TagInv db2 := by
                  obtain ⟨i1, i2, i3⟩ := hwft
                  refine ⟨?_, ?_, ?_⟩
                  · rw [hb2tags, hb2ntid]
                    exact fun t ht => i1 t ht
                  · rw [hb2tags]; exact i2
                  · rw [hb2tags]; exact i3
                obtain ⟨huframe, huinv, humono, huchar, hucomp⟩ :=
                  updateNoteTags_spec db2 db.nextNoteId note.tags _ hinv2 hup
                refine ⟨by simp [targetNoteId, hidc], ?_, ?_, ?_,
                  fun hcon => absurd hcon htags, fun _ => ?_⟩
                · rw [huframe.2.1, hb2blocks, hfilter_id]
                · rw [huframe.1, hb2notes]
                · rw [huframe.2.2.1, hb2topics]
                · rw [hb2nt] at humono huchar
                  exact ⟨humono, huchar, hucomp⟩
  | some j =>
      simp only [hidc] at hok
      by_cases hguard :
          (db.notes.any (fun n => n.id = j) && ¬ topicFKOk db note.topic_id) = true
      · rw [if_pos hguard] at hok; cases hok
      rw [if_neg hguard] at hok
      cases hsb : saveBlocks
          { db with
              notes := db.notes.map (fun (n : NoteRow) =>
                if n.id = j then { n with title := note.title, topic_id := note.topic_id }
                else n)
              blocks := db.blocks.filter (fun b => ¬ b.note_id = j) }
          j 0 note.blocks with
      | error e => rw [hsb] at hok; cases hok
      | ok db2 =>
          rw [hsb] at hok
          simp only [Except.bind] at hok
          obtain ⟨hb2blocks, hb2notes, hb2tags, hb2nt, hb2topics, hb2nnid,
            hb2ntid, hb2ntop⟩ := saveBlocks_ok_spec note.blocks _ _ _ _ hsb
          by_cases htags : note.tags = []
          · rw [if_pos htags] at hok
            simp only [Except.bind] at hok
            have hpair := Except.ok.inj hok
            have hdb : db2 = db' := congrArg Prod.fst hpair
            have hnid : j = nid := congrArg Prod.snd hpair
            subst hdb
            subst hnid
            refine ⟨by simp [targetNoteId, hidc], ?_, ?_, ?_, fun _ => ?_,
              fun hcon => absurd htags hcon⟩
            · rw [hb2blocks]
            · rw [hb2notes]
            · rw [hb2topics]
            · rw [hb2nt]
          · rw [if_neg htags] at hok
            cases hup : updateNoteTags db2 j note.tags with
            | error e => rw [hup] at hok; cases hok
            | ok db3 =>
                rw [hup] at hok
                simp only [Except.bind] at hok
                have hpair := Except.ok.inj hok
                have hdb : db3 = db' := congrArg Prod.fst hpair
                have hnid : j = nid := congrArg Prod.snd hpair
                subst hdb
                subst hnid
                have hinv2 : TagInv db2 := by
                  obtain ⟨i1, i2, i3⟩ := hwft
                  refine ⟨?_, ?_, ?_⟩
                  · rw [hb2tags, hb2ntid]
                    exact fun t ht => i1 t ht
                  · rw [hb2tags]; exact i2
                  · rw [hb2tags]; exact i3
                obtain ⟨huframe, huinv, humono, huchar, hucomp⟩ :=
                  updateNoteTags_spec db2 j note.tags _ hinv2 hup
                refine ⟨by simp [targetNoteId, hidc], ?_, ?_, ?_,
                  fun hcon => absurd hcon htags, fun _ => ?_⟩
                · rw [huframe.2.1, hb2blocks]
                · rw [huframe.1, hb2notes]
                · rw [huframe.2.2.1, hb2topics]
                · rw [hb2nt] at humono huchar
                  exact ⟨humono, huchar, hucomp⟩

theorem saveNote_succeeds (db : DB) (note : PyNote) (hwf : WF db)
    (htitle : ¬ pyStrip note.title = "")
    (hvalid : ∀ b ∈ note.blocks, b.type?.isSome ∧ b.content?.isSome ∧
      1 ≤ b.level ∧ b.level ≤ 6)
    (hnodup : (note.blocks.map PyBlock.id).Nodup)
    (hfresh : ∀ b ∈ note.blocks, ∀ r ∈ db.blocks,
      ¬ r.note_id = targetNoteId db note → ¬ r.id = b.id)
    (htopic : topicFKOk db note.topic_id = true)
    (hid : ∀ i, note.id = some i → db.notes.any (fun n => n.id = i) = true) :
    ∃ db' nid, saveNote db note = .ok (db', nid) := by
  obtain ⟨hwfn, hwfb, hwfc, hwft⟩ := hwf
  cases hidc : note.id with
  | none =>
      have htarget : targetNoteId db note = db.nextNoteId := by
        simp [targetNoteId, hidc]
      have hany : (db.notes ++
          [(⟨db.nextNoteId, note.title, note.topic_id⟩ : NoteRow)]).any
            (fun n => n.id = db.nextNoteId) = true := by
        rw [List.any_append]
        apply Bool.or_eq_true_iff.2
        right
        simp [List.any]
      obtain ⟨db2, hsb⟩ := saveBlocks_succeeds note.blocks
        { db with
            notes := db.notes ++ [⟨db.nextNoteId, note.title, note.topic_id⟩]
            nextNoteId := db.nextNoteId + 1 }
        db.nextNoteId 0 hvalid hnodup
        (by
          intro b hb r hr
          apply hfresh b hb r hr
          rw [htarget]
          intro heq
          rcases List.any_eq_true.1 (hwfb r hr) with ⟨n, hn, hnid⟩
          simp only [decide_eq_true_eq] at hnid
          have := (hwfn n hn).2
          omega)
        hany
      have hnotes2 : db2.notes = db.notes ++ [⟨db.nextNoteId, note.title, note.topic_id⟩] :=
        (saveBlocks_ok_spec note.blocks _ _ _ _ hsb).2.1
      by_cases htags : note.tags = []
      · refine ⟨db2, db.nextNoteId, ?_⟩
        unfold saveNote
        rw [if_neg htitle]
        unfold saveNoteBody
        simp only [hidc]
        rw [if_pos htopic, hsb]
        simp only [Except.bind]
        rw [if_pos htags]
      · have hany2 : db2.notes.any (fun n => n.id = db.nextNoteId) = true := by
          rw [hnotes2]; exact hany
        obtain ⟨db3, hat⟩ := attachTags_succeeds note.tags.dedup
          { db2 with
              note_tags := db2.note_tags.filter (fun a => ¬ a.note_id = db.nextNoteId) }
          db.nextNoteId
          (by
            show db2.notes.any (fun n => n.id = db.nextNoteId) = true
            exact hany2)
        have hup : updateNoteTags db2 db.nextNoteId note.tags = .ok db3 := by
          unfold updateNoteTags
          exact hat
        refine ⟨db3, db.nextNoteId, ?_⟩
        unfold saveNote
        rw [if_neg htitle]
        unfold saveNoteBody
        simp only [hidc]
        rw [if_pos htopic, hsb]
        simp only [Except.bind]
        rw [if_neg htags, hup]
  | some j =>
      have htarget : targetNoteId db note = j := by
        simp [targetNoteId, hidc]
      have hanyj : db.notes.any (fun n => n.id = j) = true := hid j hidc
      have hguard : ¬ ((db.notes.any (fun n => n.id = j) &&
          ¬ topicFKOk db note.topic_id) = true) := by
        simp [htopic]
      have hanyj2 : (db.notes.map (fun (n : NoteRow) =>
          if n.id = j then { n with title := note.title, topic_id := note.topic_id }
          else n)).any (fun n => n.id = j) = true := by
        rcases List.any_eq_true.1 hanyj with ⟨n, hn, hnid⟩
        simp only [decide_eq_true_eq] at hnid
        apply List.any_eq_true.2
        refine ⟨if n.id = j then { n with title := note.title, topic_id := note.topic_id }
          else n, List.mem_map_of_mem _ hn, ?_⟩
        by_cases hc : n.id = j
        · rw [if_pos hc]
          simpa using hnid
        · exact absurd hnid hc
      obtain ⟨db2, hsb⟩ := saveBlocks_succeeds note.blocks
        { db with
            notes := db.notes.map (fun (n : NoteRow) =>
              if n.id = j then { n with title := note.title, topic_id := note.topic_id }
              else n)
            blocks := db.blocks.filter (fun b => ¬ b.note_id = j) }
        j 0 hvalid hnodup
        (by
          intro b hb r hr
          have hr' : r ∈ db.blocks.filter (fun b => ¬ b.note_id = j) := hr
          rcases List.mem_filter.1 hr' with ⟨hrmem, hrpred⟩
          apply hfresh b hb r hrmem
          rw [htarget]
          simpa using hrpred)
        hanyj2
      have hnotes2 : db2.notes = db.notes.map (fun (n : NoteRow) =>
          if n.id = j then { n with title := note.title, topic_id := note.topic_id }
          else n) :=
        (saveBlocks_ok_spec note.blocks _ _ _ _ hsb).2.1
      by_cases htags : note.tags = []
      · refine ⟨db2, j, ?_⟩
        unfold saveNote
        rw [if_neg htitle]
        unfold saveNoteBody
        simp only [hidc]
        rw [if_neg hguard, hsb]
        simp only [Except.bind]
        rw [if_pos htags]
      · have hany2 : db2.notes.any (fun n => n.id = j) = true := by
          rw [hnotes2]; exact hanyj2
        obtain ⟨db3, hat⟩ := attachTags_succeeds note.tags.dedup
          { db2 with note_tags := db2.note_tags.filter (fun a => ¬ a.note_id = j) }
          j
          (by
            show db2.notes.any (fun n => n.id = j) = true
            exact hany2)
        have hup : updateNoteTags db2 j note.tags = .ok db3 := by
          unfold updateNoteTags
          exact hat
        refine ⟨db3, j, ?_⟩
        unfold saveNote
        rw [if_neg htitle]
        unfold saveNoteBody
        simp only [hidc]
        rw [if_neg hguard, hsb]
        simp only [Except.bind]
        rw [if_neg htags, hup]

/-! ### C6: tag ensure normalization -/

/-- C6 (counterexample): `add_tag("Foo")` and `add_tag(" foo ")` return
different tag ids — `add_tag` does not normalize its input. -/
theorem c6_counterexample :
    ¬ (addTag (addTag DB.empty "Foo").1 " foo ").2 = (addTag DB.empty "Foo").2 := by
  decide

/-- C6 (amended): `add_tag` is idempotent only for the identical spelling —
repeating `add_tag(name)` returns the same id — and it stores the name
verbatim: every tag row after a call is either an old row or carries
exactly the raw argument string, with no trimming or lowercasing. -/
theorem c6_add_tag_exact_idempotent (db : DB) (name : String) :
    (addTag (addTag db name).1 name).2 = (addTag db name).2 ∧
      ∀ t ∈ (addTag db name).1.tags, t ∈ db.tags ∨ t.name = name := by
  unfold addTag
  cases h : db.tags.find? (fun t => t.name = name) with
  | some t =>
      simp only [h]
      exact ⟨by trivial, fun t ht => Or.inl ht⟩
  | none =>
      simp only [h, List.find?_append, Option.or]
      constructor
      · simp [List.find?]
      · intro t ht
        rcases List.mem_append.1 ht with h1 | h2
        · exact Or.inl h1
        · simp only [List.mem_singleton] at h2
          subst h2
          exact Or.inr rfl

/-- C6 (witness for the amended theorem at a concrete input). -/
theorem c6_witness :
    (⟨1, "Foo"⟩ : TagRow) ∈ DB.empty.tags ∨ (⟨1, "Foo"⟩ : TagRow).name = "Foo" :=
  (c6_add_tag_exact_idempotent DB.empty "Foo").2 ⟨1, "Foo"⟩ (by decide)

/-! ### C7: topic creation validation -/

/-- C7 (counterexample): `create_topic("")` succeeds and stores a topic row
with an empty name, even though `Topic.validate` would reject that name —
`create_topic` never invokes any validation. -/
theorem c7_counterexample :
    createTopic DB.empty "" none =
        .ok ({ DB.empty with topics := [⟨1, "", none⟩], nextTopicId := 2 }, 1) ∧
      Topic.validateOk { id := none, name := "", parent_id := none, note_count := 0 } =
        false :=
  ⟨rfl, rfl⟩

/-- C7 (amended): `create_topic` performs no name validation — any name,
including an empty or overlong one, is inserted and an id returned; the
only failure is the foreign-key `IntegrityError` when `parent_id` does not
match an existing topic, and in that case the state is unchanged (no row
is created).  `ValidationError` is raised only by the never-invoked
`Topic.validate`, and `NotFoundError` does not exist in the code. -/
theorem c7_create_topic_no_validation (db : DB) (name : String)
    (parent_id : Option Nat) :
    (∀ p, parent_id = some p → db.topics.any (fun t => t.id = p) = false →
      createTopic db name parent_id =
        .error (.integrityError "FOREIGN KEY constraint failed")) ∧
    ((parent_id = none ∨
        ∃ p, parent_id = some p ∧ db.topics.any (fun t => t.id = p) = true) →
      createTopic db name parent_id =
        .ok ({ db with
                topics := db.topics ++ [⟨db.nextTopicId, name, parent_id⟩]
                nextTopicId := db.nextTopicId + 1 },
              db.nextTopicId)) := by
  constructor
  · intro p hp hfk
    subst hp
    simp [createTopic, hfk]
  · intro h
    rcases h with h | ⟨p, hp, hfk⟩
    · subst h; rfl
    · subst hp
      simp [createTopic, hfk]

/-- C7 (witness for the amended theorem at a concrete input). -/
theorem c7_witness :
    createTopic DB.empty "x" none =
      .ok ({ DB.empty with topics := [⟨1, "x", none⟩], nextTopicId := 2 }, 1) :=
  (c7_create_topic_no_validation DB.empty "x" none).2 (Or.inl rfl)

/-! ### C4: tag association replacement -/

/-- C4 (counterexample): saving a persisted note whose `tags` list is empty
returns normally but leaves an old tag association in place — the
`if hasattr(note, 'tags') and note.tags:` guard skips the replacement. -/
theorem c4_counterexample :
    saveNote exDb4
        { id := some 1, title := "t", topic_id := none, blocks := [], tags := [] } =
        .ok (exDb4, 1) ∧
      ¬ exDb4.note_tags = [] :=
  ⟨rfl, by decide⟩

/-- C4 (amended): `save_note` replaces the stored tag associations of the
note with the deduplicated, trimmed, lowercased, non-blank names of
`note.tags` only when `note.tags` is non-empty; when `note.tags` is the
empty list, the previously stored associations are left untouched. -/
theorem c4_save_tags_guard (db : DB) (note : PyNote) (db' : DB) (nid : Nat)
    (hwf : WF db) (hok : saveNote db note = .ok (db', nid)) :
    (note.tags = [] → db'.note_tags = db.note_tags) ∧
    (¬ note.tags = [] →
      (∀ a ∈ db.note_tags, ¬ a.note_id = nid → a ∈ db'.note_tags) ∧
      (∀ a ∈ db'.note_tags, (a ∈ db.note_tags ∧ ¬ a.note_id = nid) ∨
        (a.note_id = nid ∧ ∃ name ∈ note.tags, ¬ pyStrip name = "" ∧
          tagNameOf db' a.tag_id = some (pyStrip (pyLower name)))) ∧
      (∀ name ∈ note.tags, ¬ pyStrip name = "" →
        ∃ a ∈ db'.note_tags, a.note_id = nid ∧
          tagNameOf db' a.tag_id = some (pyStrip (pyLower name)))) :=
  ⟨(saveNote_ok_spec db note db' nid hwf hok).2.2.2.2.1,
    (saveNote_ok_spec db note db' nid hwf hok).2.2.2.2.2⟩

/-- C4 (witness for the amended theorem at a concrete input). -/
theorem c4_witness :
    ∃ a ∈ ({ topics := [], notes := [⟨1, "t", none⟩]
             tags := [⟨1, "todo"⟩, ⟨2, "x"⟩], note_tags := [⟨1, 2⟩], blocks := []
             nextTopicId := 1, nextNoteId := 2, nextTagId := 3 } : DB).note_tags,
      a.note_id = 1 ∧
        tagNameOf
          ({ topics := [], notes := [⟨1, "t", none⟩]
             tags := [⟨1, "todo"⟩, ⟨2, "x"⟩], note_tags := [⟨1, 2⟩], blocks := []
             nextTopicId := 1, nextNoteId := 2, nextTagId := 3 } : DB) a.tag_id =
          some (pyStrip (pyLower "X")) :=
  ((c4_save_tags_guard exDb4
      { id := some 1, title := "t", topic_id := none, blocks := [], tags := ["X"] }
      _ 1 (by unfold WF TagInv; decide) rfl).2 (by decide)).2.2 "X" (by decide) (by decide)

/-! ### C3: save_note atomicity -/

/-- C3: `save_note` is transactional: on an exception the committed state
is exactly the state before the call, and on normal return the committed
state carries the complete new note row, the complete new block sequence
for the note (other notes' blocks untouched), and the unchanged
associations when `note.tags` is empty — never a partial mixture. -/
theorem c3_save_note_atomic (db : DB) (note : PyNote) (hwf : WF db)
    (hid : ∀ i, note.id = some i → db.notes.any (fun n => n.id = i) = true) :
    (∀ e, saveNote db note = .error e → saveNoteVisible db note = db) ∧
    (∀ db' nid, saveNote db note = .ok (db', nid) →
      saveNoteVisible db note = db' ∧
      db'.blocks.filter (fun b => b.note_id = nid) =
        expectedRowsFrom nid 0 note.blocks ∧
      db'.blocks.filter (fun b => ¬ b.note_id = nid) =
        db.blocks.filter (fun b => ¬ b.note_id = nid) ∧
      (∃ row ∈ db'.notes, row.id = nid ∧ row.title = note.title ∧
        row.topic_id = note.topic_id) ∧
      (note.tags = [] → db'.note_tags = db.note_tags)) := by
  constructor
  · intro e he
    unfold saveNoteVisible
    rw [he]
  · intro db' nid hok
    obtain ⟨hnid, hblocks, hnotes, htopics, htagsE, _⟩ :=
      saveNote_ok_spec db note db' nid hwf hok
    refine ⟨?_, ?_, ?_, ?_, htagsE⟩
    · unfold saveNoteVisible
      rw [hok]
    · rw [hblocks, List.filter_append]
      have h1 : (db.blocks.filter (fun b => ¬ b.note_id = nid)).filter
          (fun b => b.note_id = nid) = [] := by
        rw [List.filter_eq_nil_iff]
        intro r hr
        rcases List.mem_filter.1 hr with ⟨_, hpred⟩
        simp only [decide_eq_true_eq] at hpred
        simpa using hpred
      have h2 : (expectedRowsFrom nid 0 note.blocks).filter
          (fun b => b.note_id = nid) = expectedRowsFrom nid 0 note.blocks := by
        rw [List.filter_eq_self]
        intro r hr
        simpa using (expectedRows_note_id note.blocks nid 0 r hr).1
      rw [h1, h2, List.nil_append]
    · rw [hblocks, List.filter_append]
      have h1 : (db.blocks.filter (fun b => ¬ b.note_id = nid)).filter
          (fun b => ¬ b.note_id = nid) =
          db.blocks.filter (fun b => ¬ b.note_id = nid) := by
        rw [List.filter_eq_self]
        intro r hr
        exact (List.mem_filter.1 hr).2
      have h2 : (expectedRowsFrom nid 0 note.blocks).filter
          (fun b => ¬ b.note_id = nid) = [] := by
        rw [List.filter_eq_nil_iff]
        intro r hr
        have := (expectedRows_note_id note.blocks nid 0 r hr).1
        simp [this]
      rw [h1, h2, List.append_nil]
    · cases hidc : note.id with
      | none =>
          simp only [hidc] at hnotes
          refine ⟨⟨nid, note.title, note.topic_id⟩, ?_, rfl, rfl, rfl⟩
          rw [hnotes]
          exact List.mem_append_right _ (List.mem_singleton.2 rfl)
      | some j =>
          simp only [hidc] at hnotes
          have hj : j = nid := by
            rw [hnid]
            simp [targetNoteId, hidc]
          rcases List.any_eq_true.1 (hid j hidc) with ⟨n, hn, hnj⟩
          simp only [decide_eq_true_eq] at hnj
          refine ⟨{ n with title := note.title, topic_id := note.topic_id },
            ?_, ?_, rfl, rfl⟩
          · rw [hnotes]
            refine List.mem_map.2 ⟨n, hn, ?_⟩
            rw [if_pos (hnj.trans hj)]
          · show n.id = nid
            exact hnj.trans hj

/-- C3 (witness at a concrete input). -/
theorem c3_witness :
    saveNoteVisible DB.empty
        { id := none, title := "t", topic_id := none, blocks := [], tags := [] } =
      { DB.empty with notes := [⟨1, "t", none⟩], nextNoteId := 2 } :=
  ((c3_save_note_atomic DB.empty
      { id := none, title := "t", topic_id := none, blocks := [], tags := [] }
      (by unfold WF TagInv; decide) (fun i h => nomatch h)).2
    { DB.empty with notes := [⟨1, "t", none⟩], nextNoteId := 2 } 1 rfl).1

/-! ### C2: block round trip -/

/-- C2 (code bug): the save/get round trip cannot succeed in the program
as written.  At the failing input — saving the note "Plan" with one valid
TEXT block into a fresh database — `save_note` returns normally, assigns
id 1 and stores the block row, and the note row for id 1 exists; but
`get_note(1)` then raises `NameError` instead of returning the note with
its blocks, because the found-row branch evaluates `Note(...)`
(src/database.py:330) and database.py never imports `Note`.  Every
`get_note` call on an existing id fails the same way, so no saved note
can ever be read back and the claimed round-trip law never holds. -/
theorem c2_roundtrip_blocked_by_name_error :
    saveNote DB.empty
        { id := none, title := "Plan", topic_id := none
          blocks := [⟨"b1", some .text, some "draft", [], 1⟩], tags := [] } =
      .ok (exDb2saved, 1) ∧
    (⟨1, "Plan", none⟩ : NoteRow) ∈ exDb2saved.notes ∧
    getNote exDb2saved 1 = .error (.nameError "name 'Note' is not defined") :=
  ⟨rfl, by decide, rfl⟩

/-! ### C8: search membership -/

theorem likeMatch_pct_iff (ps s : List Char) :
    likeMatch ('%' :: ps) s = true ↔ ∃ t, t <:+ s ∧ likeMatch ps t = true := by
  show (if ('%' : Char) = '%' then s.tails.any (fun t => likeMatch ps t)
      else _) = true ↔ _
  rw [if_pos rfl, List.any_eq_true]
  constructor
  · rintro ⟨t, ht, hm⟩
    exact ⟨t, (List.mem_tails t s).1 ht, hm⟩
  · rintro ⟨t, ht, hm⟩
    exact ⟨t, (List.mem_tails t s).2 ht, hm⟩

theorem likeMatch_lit (q : List Char) :
    ∀ s, (∀ c ∈ q, ¬ c = '%' ∧ ¬ c = '_') →
      (likeMatch (q ++ ['%']) s = true ↔
        q.map Char.toLower <+: s.map Char.toLower) := by
  induction q with
  | nil =>
      intro s _
      constructor
      · intro _
        simp
      · intro _
        show likeMatch ('%' :: []) s = true
        rw [likeMatch_pct_iff]
        exact ⟨[], List.nil_suffix, rfl⟩
  | cons a q' ih =>
      intro s hok
      obtain ⟨ha1, ha2⟩ := hok a (List.mem_cons_self _ _)
      have hok' : ∀ c ∈ q', ¬ c = '%' ∧ ¬ c = '_' :=
        fun c hc => hok c (List.mem_cons_of_mem _ hc)
      show (if a = '%' then _ else _) = true ↔ _
      rw [if_neg ha1]
      cases s with
      | nil =>
          simp
      | cons c s' =>
          show ((if a = '_' then true else charEqCI a c) &&
              likeMatch (q' ++ ['%']) s') = true ↔
            (a :: q').map Char.toLower <+: (c :: s').map Char.toLower
          rw [if_neg ha2]
          simp only [List.map_cons, List.cons_prefix_cons, Bool.and_eq_true]
          constructor
          · rintro ⟨hc, hm⟩
            refine ⟨?_, (ih s' hok').1 hm⟩
            simpa [charEqCI] using hc
          · rintro ⟨hc, hm⟩
            refine ⟨?_, (ih s' hok').2 hm⟩
            simpa [charEqCI] using hc

theorem likeMatch_contains (q s : List Char)
    (hq : ∀ c ∈ q, ¬ c = '%' ∧ ¬ c = '_') :
    likeMatch ('%' :: (q ++ ['%'])) s = true ↔
      q.map Char.toLower <:+: s.map Char.toLower := by
  rw [likeMatch_pct_iff, List.infix_iff_prefix_suffix]
  constructor
  · rintro ⟨t, hts, hm⟩
    exact ⟨t.map Char.toLower, (likeMatch_lit q t hq).1 hm, hts.map Char.toLower⟩
  · rintro ⟨u, hqu, hus⟩
    obtain ⟨w, hw⟩ := hus
    obtain ⟨s₁, s₂, hs, hm1, hm2⟩ := List.map_eq_append_iff.1 hw.symm
    refine ⟨s₂, ⟨s₁, hs.symm⟩, ?_⟩
    rw [likeMatch_lit q s₂ hq, hm2]
    exact hqu

/-- C8 (counterexample): for the one-character-wildcard query `"_"` the
note titled `"a"` is returned even though neither its title nor any block
contains the substring `"_"` — the query string is interpolated into a
LIKE pattern, so wildcard characters leak into the matching. -/
theorem c8_counterexample :
    searchNotes exDb8 "_" none = [⟨1, "a", none⟩] ∧
      ¬ containsCI "_" "a" ∧ exDb8.blocks = [] := by
  refine ⟨by decide, ?_, by decide⟩
  unfold containsCI
  decide

/-- C8 (amended): a blank query with no tag returns the empty list; for a
non-blank query containing no LIKE wildcard characters (`%`, `_`), a note
is in the result iff its title or some block's content contains the query
as a case-insensitive substring, further restricted, when a non-empty tag
is supplied, to notes carrying the lowercased tag name.  Queries that do
contain wildcard characters are interpreted as LIKE patterns instead. -/
theorem c8_search_membership (db : DB) (query : String) (tag : Option String) :
    ((pyStrip query = "" ∧ (tag = none ∨ tag = some "")) →
      searchNotes db query tag = []) ∧
    (¬ pyStrip query = "" → noWildcards query →
      ∀ n, n ∈ searchNotes db query tag ↔
        n ∈ db.notes ∧
        (containsCI query n.title ∨
          ∃ b ∈ db.blocks, b.note_id = n.id ∧
            ∃ c, b.content = some c ∧ containsCI query c) ∧
        (∀ t, tag = some t → ¬ t = "" →
          ∃ a ∈ db.note_tags, a.note_id = n.id ∧
            ∃ tr ∈ db.tags, tr.id = a.tag_id ∧ tr.name = pyLower t)) := by
  constructor
  · rintro ⟨h1, h2⟩
    unfold searchNotes
    rw [if_pos]
    refine ⟨h1, ?_⟩
    rcases h2 with h | h <;> subst h <;> simp [tagTruthy]
  · intro hq hw n
    unfold searchNotes
    rw [if_neg (by intro h; exact hq h.1)]
    rw [List.mem_filter]
    have hquery : ∀ (str : String),
        (strLike str (likePat query) = true ↔ containsCI query str) := by
      intro str
      unfold strLike likePat containsCI
      exact likeMatch_contains query.data str.data hw
    constructor
    · rintro ⟨hmem, hcond⟩
      rw [Bool.and_eq_true] at hcond
      obtain ⟨hc1, hc2⟩ := hcond
      rw [if_pos hq] at hc1
      refine ⟨hmem, ?_, ?_⟩
      · unfold noteMatchesQuery at hc1
        rw [Bool.or_eq_true] at hc1
        rcases hc1 with h | h
        · exact Or.inl ((hquery n.title).1 h)
        · right
          rcases List.any_eq_true.1 h with ⟨b, hb, hbp⟩
          rw [Bool.and_eq_true] at hbp
          obtain ⟨hbid, hbc⟩ := hbp
          refine ⟨b, hb, by simpa using hbid, ?_⟩
          cases hco : b.content with
          | none => rw [hco] at hbc; cases hbc
          | some c =>
              rw [hco] at hbc
              exact ⟨c, rfl, (hquery c).1 hbc⟩
      · intro t ht htne
        subst ht
        have hc2' : (if ¬ t = "" then noteMatchesTag db t n else true) = true := hc2
        rw [if_pos htne] at hc2'
        unfold noteMatchesTag at hc2'
        rcases List.any_eq_true.1 hc2' with ⟨a, ha, hap⟩
        rw [Bool.and_eq_true] at hap
        obtain ⟨haid, hatag⟩ := hap
        rcases List.any_eq_true.1 hatag with ⟨tr, htr, htrp⟩
        rw [Bool.and_eq_true] at htrp
        exact ⟨a, ha, by simpa using haid,
          tr, htr, by simpa using htrp.1, by simpa using htrp.2⟩
    · rintro ⟨hmem, hmatch, htag⟩
      refine ⟨hmem, ?_⟩
      rw [Bool.and_eq_true]
      constructor
      · rw [if_pos hq]
        unfold noteMatchesQuery
        rw [Bool.or_eq_true]
        rcases hmatch with h | ⟨b, hb, hbid, c, hbc, hcc⟩
        · exact Or.inl ((hquery n.title).2 h)
        · right
          apply List.any_eq_true.2
          refine ⟨b, hb, ?_⟩
          rw [Bool.and_eq_true]
          refine ⟨by simpa using hbid, ?_⟩
          rw [hbc]
          exact (hquery c).2 hcc
      · cases htc : tag with
        | none => rfl
        | some t =>
            show (if ¬ t = "" then noteMatchesTag db t n else true) = true
            by_cases htne : t = ""
            · rw [if_neg (by simpa using htne)]
            · rw [if_pos htne]
              unfold noteMatchesTag
              obtain ⟨a, ha, haid, tr, htr, htrid, htrname⟩ := htag t htc htne
              apply List.any_eq_true.2
              refine ⟨a, ha, ?_⟩
              rw [Bool.and_eq_true]
              refine ⟨by simpa using haid, ?_⟩
              apply List.any_eq_true.2
              refine ⟨tr, htr, ?_⟩
              rw [Bool.and_eq_true]
              exact ⟨by simpa using htrid, by simpa using htrname⟩

/-- C8 (witness for the amended theorem at a concrete input). -/
theorem c8_witness : searchNotes exDb8 "" none = [] :=
  (c8_search_membership exDb8 "" none).1 ⟨rfl, Or.inl rfl⟩

/-! ### C10: topics tree construction -/

theorem find_topic_row (ts : List TopicRow) (t : TopicRow) (hmem : t ∈ ts)
    (hnodup : (ts.map TopicRow.id).Nodup) :
    ts.find? (fun r => r.id = t.id) = some t := by
  cases hf : ts.find? (fun r => r.id = t.id) with
  | none =>
      rw [List.find?_eq_none] at hf
      exact absurd (by simp) (hf t hmem)
  | some r =>
      have hrid : r.id = t.id := by simpa using List.find?_some hf
      have hrmem := List.mem_of_find?_eq_some hf
      rw [List.inj_on_of_nodup_map hnodup hrmem hmem hrid]

theorem parentStep_perm (ts ts' : List TopicRow) (hperm : ts.Perm ts')
    (hnodup : (ts.map TopicRow.id).Nodup) (j : Nat) :
    parentStep ts j = parentStep ts' j := by
  have hnodup' : (ts'.map TopicRow.id).Nodup :=
    ((hperm.map TopicRow.id).nodup_iff).1 hnodup
  unfold parentStep
  by_cases hj : ∃ t ∈ ts, t.id = j
  · obtain ⟨t, ht, htid⟩ := hj
    subst htid
    rw [find_topic_row ts t ht hnodup,
      find_topic_row ts' t (hperm.mem_iff.1 ht) hnodup']
  · have h1 : ts.find? (fun r => r.id = j) = none := by
      rw [List.find?_eq_none]
      intro r hr
      simp only [decide_eq_true_eq]
      exact fun h => hj ⟨r, hr, h⟩
    have h2 : ts'.find? (fun r => r.id = j) = none := by
      rw [List.find?_eq_none]
      intro r hr
      simp only [decide_eq_true_eq]
      exact fun h => hj ⟨r, hperm.mem_iff.2 hr, h⟩
    rw [h1, h2]

theorem iterParent_perm (ts ts' : List TopicRow) (hperm : ts.Perm ts')
    (hnodup : (ts.map TopicRow.id).Nodup) :
    ∀ (k j : Nat), iterParent ts k j = iterParent ts' k j := by
  intro k
  induction k with
  | zero => intro j; rfl
  | succ k ihk =>
      intro j
      show (parentStep ts j).bind (iterParent ts k) =
        (parentStep ts' j).bind (iterParent ts' k)
      rw [parentStep_perm ts ts' hperm hnodup j]
      cases parentStep ts' j with
      | none => rfl
      | some i =>
          show iterParent ts k i = iterParent ts' k i
          exact ihk i

theorem iterParent_add (ts : List TopicRow) :
    ∀ (a b j : Nat),
      iterParent ts (a + b) j = (iterParent ts a j).bind (iterParent ts b) := by
  intro a
  induction a with
  | zero =>
      intro b j
      rw [Nat.zero_add]
      rfl
  | succ a iha =>
      intro b j
      rw [Nat.succ_add]
      show (parentStep ts j).bind (iterParent ts (a + b)) =
        ((parentStep ts j).bind (iterParent ts a)).bind (iterParent ts b)
      cases parentStep ts j with
      | none => rfl
      | some i =>
          show iterParent ts (a + b) i = (iterParent ts a i).bind (iterParent ts b)
          exact iha b i

theorem rooted_no_cycle (ts : List TopicRow)
    (hnodup : (ts.map TopicRow.id).Nodup) :
    ∀ t, Rooted ts t → t ∈ ts → ¬ OnCycle ts t.id := by
  intro t hroot
  induction hroot with
  | isRoot t hp =>
      rintro hmem ⟨m, hm⟩
      have hps : parentStep ts t.id = none := by
        unfold parentStep
        rw [find_topic_row ts t hmem hnodup]
        exact hp
      rw [show iterParent ts (m + 1) t.id =
        (parentStep ts t.id).bind (iterParent ts m) from rfl, hps] at hm
      cases hm
  | step t p hp hpmem hproot ih =>
      rintro hmem ⟨m, hm⟩
      have hps : parentStep ts t.id = some p.id := by
        unfold parentStep
        rw [find_topic_row ts t hmem hnodup]
        exact hp
      rw [show iterParent ts (m + 1) t.id =
        (parentStep ts t.id).bind (iterParent ts m) from rfl, hps] at hm
      have hm' : iterParent ts m p.id = some t.id := hm
      refine ih hpmem ⟨m, ?_⟩
      rw [iterParent_add ts m 1 p.id, hm']
      show iterParent ts 1 t.id = some p.id
      rw [show iterParent ts 1 t.id =
        (parentStep ts t.id).bind (iterParent ts 0) from rfl, hps]
      rfl

theorem rooted_congr (ts ts' : List TopicRow)
    (h : ∀ x : TopicRow, x ∈ ts ↔ x ∈ ts') :
    ∀ t, Rooted ts t → Rooted ts' t := by
  intro t hr
  induction hr with
  | isRoot t hp => exact Rooted.isRoot t hp
  | step t p hp hpmem _ ih => exact Rooted.step t p hp ((h p).1 hpmem) ih

theorem buildNode_id (ts : List TopicRow) (fuel : Nat) (r : TopicRow) :
    (buildNode ts fuel r).id = r.id := by
  cases fuel <;> rfl

theorem occursIn_build_rooted (ts : List TopicRow) :
    ∀ (fuel : Nat) (r : TopicRow), r ∈ ts → Rooted ts r →
      ∀ j, occursIn j (buildNode ts fuel r) = true →
        ∃ t ∈ ts, t.id = j ∧ Rooted ts t := by
  intro fuel
  induction fuel with
  | zero =>
      intro r hr hroot j hocc
      simp only [buildNode, occursIn, List.attach_nil, List.any_nil,
        Bool.or_false, decide_eq_true_eq] at hocc
      exact ⟨r, hr, hocc, hroot⟩
  | succ fuel ih =>
      intro r hr hroot j hocc
      simp only [buildNode, occursIn] at hocc
      rw [Bool.or_eq_true] at hocc
      rcases hocc with h | h
      · simp only [decide_eq_true_eq] at h
        exact ⟨r, hr, h, hroot⟩
      · rcases List.any_eq_true.1 h with ⟨c, _, hc⟩
        have hc1 : c.1 ∈ (childrenRows ts r.id).map (buildNode ts fuel) := c.2
        rcases List.mem_map.1 hc1 with ⟨r', hr', hbuild⟩
        rcases List.mem_filter.1 hr' with ⟨hr'mem, hr'pred⟩
        simp only [decide_eq_true_eq] at hr'pred
        have hroot' : Rooted ts r' := Rooted.step r' r hr'pred hr hroot
        exact ih r' hr'mem hroot' j (by rw [hbuild]; exact hc)

theorem occursForest_rooted (db : DB) (j : Nat)
    (hnodup : (db.topics.map TopicRow.id).Nodup)
    (hocc : occursForest (getTopicsTree db) j = true) :
    ∃ t ∈ db.topics, t.id = j ∧ Rooted db.topics t := by
  have hperm : (sortByName db.topics).Perm db.topics :=
    List.perm_insertionSort _ _
  unfold occursForest getTopicsTree at hocc
  rcases List.any_eq_true.1 hocc with ⟨node, hnode, hocc'⟩
  rcases List.mem_map.1 hnode with ⟨r, hr, hbuild⟩
  rcases List.mem_filter.1 hr with ⟨hrmem, hrpred⟩
  have hroot : Rooted (sortByName db.topics) r :=
    Rooted.isRoot r (by simpa using hrpred)
  obtain ⟨t, ht, htid, htroot⟩ :=
    occursIn_build_rooted (sortByName db.topics) _ r hrmem hroot j
      (by rw [hbuild]; exact hocc')
  refine ⟨t, hperm.mem_iff.1 ht, htid, ?_⟩
  exact rooted_congr _ _ (fun x => hperm.mem_iff) t htroot

/-- C10: with primary-key-distinct topic ids, `get_topics_tree` silently
omits from the returned forest every topic whose `parent_id` does not
match any fetched topic's id, and likewise every topic lying on a
`parent_id` cycle (neither appears as a root nor as any node's transitive
child), while every topic with a null `parent_id` appears exactly once as
a root. -/
theorem c10_tree_omits_unrooted (db : DB)
    (hnodup : (db.topics.map TopicRow.id).Nodup) :
    (∀ t ∈ db.topics, ∀ p, t.parent_id = some p →
      ¬ (∃ r ∈ db.topics, r.id = p) →
      occursForest (getTopicsTree db) t.id = false) ∧
    (∀ t ∈ db.topics, OnCycle db.topics t.id →
      occursForest (getTopicsTree db) t.id = false) ∧
    (∀ t ∈ db.topics, t.parent_id = none →
      ((getTopicsTree db).filter (fun nd => nd.id = t.id)).length = 1) := by
  have hperm : (sortByName db.topics).Perm db.topics :=
    List.perm_insertionSort _ _
  refine ⟨?_, ?_, ?_⟩
  · intro t ht p hp hnp
    by_contra hocc
    rw [Bool.not_eq_false] at hocc
    obtain ⟨t', ht', hid, hroot⟩ := occursForest_rooted db t.id hnodup hocc
    have heq : t' = t := List.inj_on_of_nodup_map hnodup ht' ht hid
    subst heq
    cases hroot with
    | isRoot _ hnone => rw [hp] at hnone; cases hnone
    | step _ q hq hqmem _ =>
        rw [hp] at hq
        exact hnp ⟨q, hqmem, (Option.some.inj hq).symm⟩
  · intro t ht hcyc
    by_contra hocc
    rw [Bool.not_eq_false] at hocc
    obtain ⟨t', ht', hid, hroot⟩ := occursForest_rooted db t.id hnodup hocc
    rw [← hid] at hcyc
    exact rooted_no_cycle db.topics hnodup t' hroot ht' hcyc
  · intro t ht hp
    show ((((sortByName db.topics).filter (fun r => r.parent_id = none)).map
        (buildNode (sortByName db.topics) (sortByName db.topics).length)).filter
          (fun nd => nd.id = t.id)).length = 1
    have h1 : ((((sortByName db.topics).filter (fun r => r.parent_id = none)).map
        (buildNode (sortByName db.topics) (sortByName db.topics).length)).filter
          (fun nd => nd.id = t.id)) =
        (((sortByName db.topics).filter (fun r => r.parent_id = none)).filter
          (fun r => r.id = t.id)).map
            (buildNode (sortByName db.topics) (sortByName db.topics).length) := by
      rw [List.filter_map]
      congr 1
      apply List.filter_congr
      intro x _
      simp [Function.comp, buildNode_id]
    rw [h1, List.length_map, List.filter_filter, ← List.countP_eq_length_filter,
      hperm.countP_eq]
    have hle : List.countP
        (fun a => decide (a.id = t.id) && decide (a.parent_id = none)) db.topics ≤
        List.countP (fun r => decide (r.id = t.id)) db.topics := by
      apply List.countP_mono_left
      intro x _ hx
      rw [Bool.and_eq_true] at hx
      exact hx.1
    have heq1 : List.countP (fun r => decide (r.id = t.id)) db.topics = 1 := by
      have hcount : List.count t.id (db.topics.map TopicRow.id) = 1 :=
        List.count_eq_one_of_mem hnodup (List.mem_map_of_mem _ ht)
      rw [List.count_eq_countP, List.countP_map] at hcount
      rw [← hcount]
      apply List.countP_congr
      intro x _
      simp [Function.comp]
    have hge : 0 < List.countP
        (fun a => decide (a.id = t.id) && decide (a.parent_id = none)) db.topics := by
      rw [List.countP_pos_iff]
      exact ⟨t, ht, by simp [hp]⟩
    omega

/-- C10 (witness at a concrete input). -/
theorem c10_witness :
    occursForest (getTopicsTree exDb10) 2 = false :=
  (c10_tree_omits_unrooted exDb10 (by decide)).1 ⟨2, "dangling", some 99⟩
    (by decide) 99 rfl (by decide)

/-! ### C9: get_note id guard -/

/-- C9: `get_note` raises `ValueError` for a non-positive id before any
storage access, and returns `None` exactly when the id is positive and no
note row matches.  When a row does match, the call raises `NameError`
(`Note` is undefined in database.py) rather than returning anything, so
`None` really is returned only in the positive-id, no-row case. -/
theorem c9_invalid_id_guard (db : DB) (note_id : Int) :
    (note_id ≤ 0 → getNote db note_id = .error (.valueError "Invalid note ID")) ∧
    (0 < note_id →
      (getNote db note_id = .ok none ↔ ∀ n ∈ db.notes, ¬ (n.id : Int) = note_id)) ∧
    (0 < note_id → (∃ n ∈ db.notes, (n.id : Int) = note_id) →
      getNote db note_id = .error (.nameError "name 'Note' is not defined")) := by
  refine ⟨?_, ?_, ?_⟩
  · intro h
    simp [getNote, h]
  · intro h
    have hneg : ¬ note_id ≤ 0 := by omega
    unfold getNote
    simp only [if_neg hneg]
    cases hf : db.notes.find? (fun n => (n.id : Int) = note_id) with
    | none =>
        simp only [List.find?_eq_none] at hf
        constructor
        · intro _ n hn
          have := hf n hn
          simpa using this
        · intro _; rfl
    | some r =>
        constructor
        · intro hcontra
          cases hcontra
        · intro hall
          have hr := List.find?_some hf
          have hmem := List.mem_of_find?_eq_some hf
          simp only [decide_eq_true_eq] at hr
          exact absurd hr (hall r hmem)
  · intro h hex
    have hneg : ¬ note_id ≤ 0 := by omega
    unfold getNote
    simp only [if_neg hneg]
    cases hf : db.notes.find? (fun n => (n.id : Int) = note_id) with
    | none =>
        rw [List.find?_eq_none] at hf
        obtain ⟨n, hn, hid⟩ := hex
        exact absurd (by simpa using hid) (hf n hn)
    | some r => rfl

/-- C9 (witness at a concrete input). -/
theorem c9_witness : getNote DB.empty 5 = .ok none :=
  ((c9_invalid_id_guard DB.empty 5).2.1 (by decide)).mpr (by decide)

/-! ### C1: cascading note deletion -/

/-- C1 (counterexample): topic 2 is in topic 1's subtree and note 10 is
filed there, yet after `delete_topic(1, delete_notes=True)` the note still
exists in the notes table (promoted to null), so not every subtree note
was removed. -/
theorem c1_counterexample :
    inSubtree exDb1.topics 1 2 = true ∧
      (deleteTopic exDb1 1 true).1.notes = [⟨10, "n", none⟩] := by
  decide

/-- C1 (amended): `delete_topic(T, delete_notes=True)` deletes exactly the
notes filed directly in T; a note filed in a proper descendant of T
survives, with its `topic_id` cleared to null by the `ON DELETE SET NULL`
action when the descendant topic rows are cascade-deleted. -/
theorem c1_cascade_deletes_only_direct_notes (db : DB) (tid t : Nat)
    (n : NoteRow) (hn : n ∈ db.notes) (ht : n.topic_id = some t)
    (hsub : inSubtree db.topics tid t = true) :
    (t = tid → n ∉ (deleteTopic db tid true).1.notes) ∧
    (¬ t = tid →
      { n with topic_id := none } ∈ (deleteTopic db tid true).1.notes) := by
  have hnotes : (deleteTopic db tid true).1.notes =
      (db.notes.filter (fun m => ¬ m.topic_id = some tid)).map
        (fun m =>
          match m.topic_id with
          | some u => if inSubtree db.topics tid u then { m with topic_id := none } else m
          | none => m) := rfl
  rw [hnotes]
  constructor
  · intro heq hmem
    rw [heq] at ht
    rcases List.mem_map.1 hmem with ⟨m, hm, hfm⟩
    rcases List.mem_filter.1 hm with ⟨_, hkeep⟩
    simp only [decide_eq_true_eq] at hkeep
    cases hmt : m.topic_id with
    | none =>
        simp only [hmt] at hfm
        rw [← hfm] at ht
        simp [hmt] at ht
    | some u =>
        simp only [hmt] at hfm
        by_cases hu : inSubtree db.topics tid u = true
        · rw [if_pos hu] at hfm
          rw [← hfm] at ht
          simp at ht
        · rw [if_neg hu] at hfm
          rw [← hfm] at ht
          exact hkeep ht
  · intro hne
    apply List.mem_map.2
    refine ⟨n, List.mem_filter.2 ⟨hn, ?_⟩, ?_⟩
    · simp only [decide_eq_true_eq, ht]
      intro hcontra
      exact hne (Option.some.inj hcontra)
    · simp only [ht, hsub, if_true]

/-- C1 (witness for the amended theorem at a concrete input). -/
theorem c1_witness :
    ({ id := 10, title := "n", topic_id := none } : NoteRow) ∈
      (deleteTopic exDb1 1 true).1.notes :=
  (c1_cascade_deletes_only_direct_notes exDb1 1 2 ⟨10, "n", some 2⟩
      (by decide) rfl (by decide)).2 (by decide)

/-! ### C5: deletion with note promotion -/

/-- C5: after `delete_topic(T, delete_notes=False)`, no note references
T's id or any id in T's former subtree, every note formerly filed anywhere
in the subtree survives with a null `topic_id`, and no note is deleted. -/
theorem c5_delete_promotes_subtree_notes (db : DB) (tid : Nat) :
    (∀ n ∈ (deleteTopic db tid false).1.notes, ¬ n.topic_id = some tid) ∧
    (∀ n ∈ (deleteTopic db tid false).1.notes, ∀ t, n.topic_id = some t →
      inSubtree db.topics tid t = false) ∧
    (∀ n ∈ db.notes, ∀ t, n.topic_id = some t → inSubtree db.topics tid t = true →
      { n with topic_id := none } ∈ (deleteTopic db tid false).1.notes) ∧
    (deleteTopic db tid false).1.notes.length = db.notes.length := by
  have hnotes : (deleteTopic db tid false).1.notes =
      (db.notes.map (fun m =>
          if m.topic_id = some tid then { m with topic_id := none } else m)).map
        (fun m =>
          match m.topic_id with
          | some u => if inSubtree db.topics tid u then { m with topic_id := none } else m
          | none => m) := rfl
  rw [hnotes]
  refine ⟨?_, ?_, ?_, ?_⟩
  · intro n hmem
    rcases List.mem_map.1 hmem with ⟨m, _, hfm⟩
    cases hmt : m.topic_id with
    | none =>
        simp only [hmt] at hfm
        rw [← hfm, hmt]
        simp
    | some u =>
        simp only [hmt] at hfm
        by_cases hu : inSubtree db.topics tid u = true
        · rw [if_pos hu] at hfm
          rw [← hfm]
          simp
        · rw [if_neg hu] at hfm
          rw [← hfm, hmt]
          rcases List.mem_map.1 ‹m ∈ _› with ⟨m0, _, hfm0⟩
          by_cases h0 : m0.topic_id = some tid
          · rw [if_pos h0] at hfm0
            rw [← hfm0] at hmt
            simp at hmt
          · rw [if_neg h0] at hfm0
            rw [hfm0] at h0
            rw [hmt] at h0
            exact h0
  · intro n hmem t hnt
    rcases List.mem_map.1 hmem with ⟨m, _, hfm⟩
    cases hmt : m.topic_id with
    | none =>
        simp only [hmt] at hfm
        rw [← hfm, hmt] at hnt
        cases hnt
    | some u =>
        simp only [hmt] at hfm
        by_cases hu : inSubtree db.topics tid u = true
        · rw [if_pos hu] at hfm
          rw [← hfm] at hnt
          cases hnt
        · rw [if_neg hu] at hfm
          rw [← hfm, hmt] at hnt
          cases hnt
          simpa using hu
  · intro n hn t hnt hsub
    by_cases hdirect : t = tid
    · subst hdirect
      apply List.mem_map.2
      refine ⟨{ n with topic_id := none }, ?_, rfl⟩
      exact List.mem_map.2 ⟨n, hn, by simp [hnt]⟩
    · apply List.mem_map.2
      refine ⟨n, ?_, ?_⟩
      · apply List.mem_map.2
        refine ⟨n, hn, ?_⟩
        rw [if_neg (by rw [hnt]; intro h; exact hdirect (Option.some.inj h))]
      · simp only [hnt, hsub, if_true]
  · simp

/-- C5 (witness at a concrete input). -/
theorem c5_witness :
    ({ id := 7, title := "Plan", topic_id := none } : NoteRow) ∈
      (deleteTopic exDb5 1 false).1.notes :=
  (c5_delete_promotes_subtree_notes exDb5 1).2.2.1 ⟨7, "Plan", some 2⟩
    (by decide) 2 rfl (by decide)

end MindForge
